import Mathlib

/-!
Verification of the bloomberg-lite connector/transform core.

This file shallowly embeds the Python source under `src/` into Lean:
pure functions become Lean functions over `ℚ` (Python floats are modelled
as exact rationals; the decimal literals appearing in the verified claims
are exactly representable or round identically), raising a Python
exception is modelled by `Except PyErr` (or `Option` for the sparkline
renderers), and `None` becomes `Option`. String processing is done on
`List Char` so that every definition evaluates by kernel reduction.
-/

/-- The Python exception classes that the embedded code can raise. -/
inductive PyErr : Type where
  | valueError
  | keyError
  | typeError
  | indexError
  | zeroDivisionError
  | overflowError
deriving DecidableEq, Repr

instance {ε α : Type} [DecidableEq ε] [DecidableEq α] :
    DecidableEq (Except ε α) := fun x y =>
  match x, y with
  | .ok a, .ok b =>
    if h : a = b then .isTrue (by rw [h])
    else .isFalse (by intro hh; cases hh; exact h rfl)
  | .error e, .error f =>
    if h : e = f then .isTrue (by rw [h])
    else .isFalse (by intro hh; cases hh; exact h rfl)
  | .ok _, .error _ => .isFalse (by intro hh; cases hh)
  | .error _, .ok _ => .isFalse (by intro hh; cases hh)

/-- Round-half-to-even on rationals: the rounding used by Python's
builtin `round` (banker's rounding), modelled exactly on `ℚ`. -/
def rndHalfEven (q : ℚ) : ℤ :=
  let f : ℤ := ⌊q⌋
  if q - f < 1/2 then f
  else if (1:ℚ)/2 < q - f then f + 1
  else if f % 2 = 0 then f else f + 1

/-- Python `round(x, n)` for `n ≥ 0` decimal digits (models CPython's
round-half-to-even on the exact value). -/
def pyRound (q : ℚ) (n : ℕ) : ℚ :=
  (rndHalfEven (q * 10 ^ n) : ℚ) / 10 ^ n

/-- Python `int(x)` on a rational: truncation toward zero. -/
def ratTrunc (q : ℚ) : ℤ :=
  if 0 ≤ q then ⌊q⌋ else ⌈q⌉

/-- Value of a nonempty all-digit character list, `none` otherwise. -/
def digitsVal? (cs : List Char) : Option ℕ :=
  if cs = [] then none
  else if cs.all Char.isDigit then
    some (cs.foldl (fun a c => 10 * a + (c.toNat - 48)) 0)
  else none

/-- Value of a possibly-empty all-digit character list (used for the
integer/fraction parts around a decimal point). -/
def digitsValD (cs : List Char) : ℕ :=
  cs.foldl (fun a c => 10 * a + (c.toNat - 48)) 0

/-- Unsigned decimal literal: `digits`, `digits.digits`, `digits.` or
`.digits` (at least one digit overall), as accepted by Python `float`. -/
def decimalVal? (cs : List Char) : Option ℚ :=
  let ip := cs.takeWhile (· ≠ '.')
  let rest := cs.dropWhile (· ≠ '.')
  match rest with
  | [] => (digitsVal? ip).map (fun n => (n : ℚ))
  | '.' :: fp =>
    if fp.any (· = '.') then none
    else if ip = [] ∧ fp = [] then none
    else if ip.all Char.isDigit ∧ fp.all Char.isDigit then
      some ((digitsValD ip : ℚ) + (digitsValD fp : ℚ) / 10 ^ fp.length)
    else none
  | _ => none

/-- Python `float(s)` on plain decimal literals (optional sign, digits,
optional fraction). `none` models `ValueError`. The exotic forms
(`inf`, `nan`, exponents, surrounding whitespace) do not occur in the
payloads the claims are about and are treated as unparseable. -/
def pyFloatOfString (s : String) : Option ℚ :=
  match s.toList with
  | '-' :: rest => (decimalVal? rest).map Neg.neg
  | '+' :: rest => decimalVal? rest
  | cs => decimalVal? cs

/-- Python `int(s)`: optional sign and decimal digits; `none` models
`ValueError`. -/
def pyParseInt (s : String) : Option ℤ :=
  match s.toList with
  | '-' :: rest => (digitsVal? rest).map (fun n => -(n : ℤ))
  | '+' :: rest => (digitsVal? rest).map (fun n => (n : ℤ))
  | cs => (digitsVal? cs).map (fun n => (n : ℤ))

/-- Python list indexing `l[i]` with negative-index wrap-around;
`none` models `IndexError`. -/
def pyIndex {α : Type} (l : List α) (i : ℤ) : Option α :=
  if 0 ≤ i then l.get? i.toNat
  else if -(l.length : ℤ) ≤ i then l.get? (i + l.length).toNat
  else none

/-- Python's string comparison on character lists: lexicographic by
code point. -/
def listLexLe : List Char → List Char → Bool
  | [], _ => true
  | _ :: _, [] => false
  | a :: as, b :: bs =>
    if a = b then listLexLe as bs else decide (a.toNat < b.toNat)

/-- Python `a <= b` on strings. -/
def pyStrLe (a b : String) : Bool :=
  listLexLe a.toList b.toList

/-- Python `pat in s` (substring containment) on character lists. -/
def hasSubstrL (pat : List Char) : List Char → Bool
  | [] => decide (pat = [])
  | c :: rest => pat.isPrefixOf (c :: rest) || hasSubstrL pat rest

/-- Python `pat in s` (substring containment). -/
def strHasSubstr (s pat : String) : Bool :=
  hasSubstrL pat.toList s.toList

/-- Python `c in s` for a single character. -/
def strContainsChar (s : String) (c : Char) : Bool :=
  s.toList.contains c

/-- Fuelled worker for `str.split(sep)` (non-overlapping, left to
right); the fuel is the length of the remaining input, which bounds the
number of steps. -/
def splitGo (pat : List Char) : ℕ → List Char → List Char → List (List Char)
  | _, [], acc => [acc.reverse]
  | 0, cs, acc => [acc.reverse ++ cs]
  | fuel + 1, c :: rest, acc =>
    if pat.isPrefixOf (c :: rest) then
      acc.reverse :: splitGo pat fuel (List.drop (pat.length - 1) rest) []
    else
      splitGo pat fuel rest (c :: acc)

/-- Python `s.split(sep)` for a nonempty separator. -/
def strSplitOn (s pat : String) : List String :=
  if pat.toList = [] then [s]
  else (splitGo pat.toList s.toList.length s.toList []).map List.asString

/-- Zero-to-nine character table (avoids `Char.ofNat`, which does not
reduce well in the kernel). -/
def digitCh (n : ℕ) : Char :=
  ['0', '1', '2', '3', '4', '5', '6', '7', '8', '9'].getD n '0'

/-- Zero-pad a natural to two digits (`strftime` `%m` / `%d`). -/
def pad2 (n : ℕ) : String :=
  ⟨[digitCh (n / 10 % 10), digitCh (n % 10)]⟩

/-- Zero-pad a natural to four digits (`strftime` `%Y`, modelled as
zero-padded to four digits). -/
def pad4 (n : ℕ) : String :=
  ⟨[digitCh (n / 1000 % 10), digitCh (n / 100 % 10),
    digitCh (n / 10 % 10), digitCh (n % 10)]⟩

/-- Gregorian leap year, as in Python's `datetime`. -/
def isLeap (y : ℕ) : Bool :=
  y % 4 = 0 && (y % 100 ≠ 0 || y % 400 = 0)

/-- Days in a month, as in Python's `datetime`. -/
def daysInMonth (y m : ℕ) : ℕ :=
  if m = 2 then (if isLeap y then 29 else 28)
  else if m = 4 ∨ m = 6 ∨ m = 9 ∨ m = 11 then 30
  else 31

/-- Validity of a `datetime.date(y, m, d)` construction
(`MINYEAR = 1`, `MAXYEAR = 9999`). -/
def validYMD (y m d : ℕ) : Bool :=
  1 ≤ y && y ≤ 9999 && 1 ≤ m && m ≤ 12 && 1 ≤ d && d ≤ daysInMonth y m

/-- The year token of `strptime` `%Y`: exactly four digits. -/
def yearTok? (cs : List Char) : Option ℕ :=
  if cs.length = 4 then digitsVal? cs else none

/-- The month token of `strptime` `%m`: one digit `1-9` or two digits
`01`-`12`. -/
def monthTok? (cs : List Char) : Option ℕ :=
  match digitsVal? cs with
  | some v =>
    if (cs.length = 1 ∧ 1 ≤ v ∧ v ≤ 9) ∨ (cs.length = 2 ∧ 1 ≤ v ∧ v ≤ 12)
    then some v else none
  | none => none

/-- The day token of `strptime` `%d`: one digit `1-9` or two digits
`01`-`31`. -/
def dayTok? (cs : List Char) : Option ℕ :=
  match digitsVal? cs with
  | some v =>
    if (cs.length = 1 ∧ 1 ≤ v ∧ v ≤ 9) ∨ (cs.length = 2 ∧ 1 ≤ v ∧ v ≤ 31)
    then some v else none
  | none => none

/-- `datetime.strptime(s, "%Y-%m-%d")`: token match plus calendar
validation; `none` models `ValueError`. -/
def parseDate (s : String) : Option (ℕ × ℕ × ℕ) :=
  match (s.toList.splitOn '-') with
  | [ys, ms, ds] =>
    match yearTok? ys, monthTok? ms, dayTok? ds with
    | some y, some m, some d => if validYMD y m d then some (y, m, d) else none
    | _, _, _ => none
  | _ => none

/-- `date.strftime("%Y-%m-%d")`. -/
def fmtDate (y m d : ℕ) : String :=
  pad4 y ++ "-" ++ pad2 m ++ "-" ++ pad2 d

/-- `Observation` from `src/storage/models.py`; `value` is an exact
rational and `retrieved_at` an abstract clock reading. -/
structure Observation where
  metric_id : String
  obs_date : String
  value : ℚ
  unit : Option String := none
  source : String := ""
  retrieved_at : Option ℕ := none
deriving DecidableEq, Repr

/-- Modelled from the spec: `ConnectorConfig` lives in
`src/connectors/base.py`, which is not under `src/`; per the spec it is
an immutable per-call request description carrying the formatting
parameters `multiplier`, `decimals`, `unit` plus the metric identity,
which is all that `normalize` reads. -/
structure ConnectorConfig where
  metric_id : String
  multiplier : ℚ
  decimals : ℕ
  unit : Option String
deriving DecidableEq, Repr

/-- A JSON scalar as the payloads carry it: number, string or `null`. -/
inductive PyVal : Type where
  | num (q : ℚ)
  | str (s : String)
  | null
deriving DecidableEq, Repr

/-- Python `float(v)` on a JSON scalar: numbers pass through, strings
are parsed (`ValueError` on failure), `None` raises `TypeError`. -/
def pyFloat : PyVal → Except PyErr ℚ
  | .num q => .ok q
  | .str s =>
    match pyFloatOfString s with
    | some q => .ok q
    | none => .error .valueError
  | .null => .error .typeError

/-- `float(v)` wrapped in `except (ValueError, TypeError)`. -/
def pyFloatCaught (v : PyVal) : Option ℚ :=
  match pyFloat v with
  | .ok q => some q
  | .error _ => none

/-- Comparator of `list.sort(key=lambda x: x.obs_date, reverse=True)`:
descending by date, with the original order kept on ties. -/
def obsDescRel (a b : Observation) : Prop :=
  pyStrLe b.obs_date a.obs_date = true

instance : DecidableRel obsDescRel := fun _ _ =>
  inferInstanceAs (Decidable (_ = true))

/-- `observations.sort(key=lambda x: x.obs_date, reverse=True)`
(CPython's sort is stable; so is insertion sort). -/
def sortObsDesc (l : List Observation) : List Observation :=
  l.insertionSort obsDescRel

/-- The list is sorted by `obs_date` descending. -/
def sortedByDateDesc (l : List Observation) : Prop :=
  l.Pairwise obsDescRel

instance : DecidablePred sortedByDateDesc := fun l =>
  inferInstanceAs (Decidable (l.Pairwise _))

/-- `calculate_change` from `src/transforms/calculations.py`. -/
def calculate_change (current : ℚ) (previous : Option ℚ) :
    Option ℚ × Option ℚ :=
  match previous with
  | none => (none, none)
  | some p =>
    if p = 0 then (some (current - p), none)
    else
      (some (pyRound (current - p) 4),
       some (pyRound ((current - p) / p * 100) 2))

/-- The `date_values = {obs.obs_date: obs.value for obs in observations}`
dictionary of `calculate_yoy_percent` / `calculate_qoq_percent`:
association list in insertion order. -/
def dateTable (l : List Observation) : List (String × ℚ) :=
  l.map (fun o => (o.obs_date, o.value))

/-- Dictionary lookup: the last binding of a key wins, as in a Python
dict comprehension. -/
def tableLookup (t : List (String × ℚ)) (k : String) : Option ℚ :=
  (t.reverse.find? (fun e => e.1 == k)).map (fun e => e.2)

/-- The date 12 months earlier, as `calculate_yoy_percent` computes it:
`strptime`, `replace(year=year-1)` (validated), `strftime`; `none`
models the caught `ValueError`. -/
def prior12 (s : String) : Option String :=
  (parseDate s).bind fun t =>
    if validYMD (t.1 - 1) t.2.1 t.2.2 then some (fmtDate (t.1 - 1) t.2.1 t.2.2)
    else none

/-- The date 3 months earlier, as `calculate_qoq_percent` computes it:
month minus three with year rollover, then a validated `replace`. -/
def prior3 (s : String) : Option String :=
  (parseDate s).bind fun t =>
    let y := if t.2.1 < 4 then t.1 - 1 else t.1
    let m := if t.2.1 < 4 then t.2.1 + 9 else t.2.1 - 3
    if validYMD y m t.2.2 then some (fmtDate y m t.2.2) else none

/-- Per-observation body of the `calculate_yoy_percent` loop: `none`
models both the `continue` paths and the caught exceptions. -/
def yoyStep (t : List (String × ℚ)) (o : Observation) : Option Observation :=
  (prior12 o.obs_date).bind fun p =>
    match tableLookup t p with
    | some pv =>
      if pv ≠ 0 then
        some { o with value := pyRound ((o.value - pv) / pv * 100) 2,
                      unit := some "%" }
      else none
    | none => none

/-- Per-observation body of the `calculate_qoq_percent` loop. -/
def qoqStep (t : List (String × ℚ)) (o : Observation) : Option Observation :=
  (prior3 o.obs_date).bind fun p =>
    match tableLookup t p with
    | some pv =>
      if pv ≠ 0 then
        some { o with value := pyRound ((o.value - pv) / pv * 100) 2,
                      unit := some "%" }
      else none
    | none => none

/-- `calculate_yoy_percent` from `src/transforms/calculations.py`. -/
def calculate_yoy_percent (observations : List Observation) :
    List Observation :=
  if observations.length < 13 then []
  else observations.filterMap (yoyStep (dateTable observations))

/-- `calculate_qoq_percent` from `src/transforms/calculations.py`. -/
def calculate_qoq_percent (observations : List Observation) :
    List Observation :=
  if observations.length < 5 then []
  else observations.filterMap (qoqStep (dateTable observations))

/-- A Python float as the sparkline renderers see it: an exact finite
rational, an infinity, or NaN (the transforms whose claims involve
non-finite input need the full IEEE special values). -/
inductive PFloat : Type where
  | finite (q : ℚ)
  | pinf
  | ninf
  | nan
deriving DecidableEq, Repr

/-- `x.isFinite`. -/
def PFloat.isFinite : PFloat → Bool
  | .finite _ => true
  | _ => false

/-- IEEE `<` (NaN incomparable). -/
def pfLt : PFloat → PFloat → Bool
  | .finite a, .finite b => decide (a < b)
  | .finite _, .pinf => true
  | .ninf, .finite _ => true
  | .ninf, .pinf => true
  | _, _ => false

/-- IEEE `==` (NaN unequal to everything, including itself). -/
def pfBeq : PFloat → PFloat → Bool
  | .finite a, .finite b => a == b
  | .pinf, .pinf => true
  | .ninf, .ninf => true
  | _, _ => false

/-- IEEE subtraction (`inf - inf = nan`, NaN propagates). -/
def pfSub : PFloat → PFloat → PFloat
  | .finite a, .finite b => .finite (a - b)
  | .finite _, .pinf => .ninf
  | .finite _, .ninf => .pinf
  | .pinf, .finite _ => .pinf
  | .ninf, .finite _ => .ninf
  | .pinf, .ninf => .pinf
  | .ninf, .pinf => .ninf
  | .pinf, .pinf => .nan
  | .ninf, .ninf => .nan
  | _, _ => .nan

/-- IEEE multiplication (`inf * 0 = nan`, NaN propagates). -/
def pfMul : PFloat → PFloat → PFloat
  | .finite a, .finite b => .finite (a * b)
  | .finite a, .pinf => if 0 < a then .pinf else if a < 0 then .ninf else .nan
  | .finite a, .ninf => if 0 < a then .ninf else if a < 0 then .pinf else .nan
  | .pinf, .finite b => if 0 < b then .pinf else if b < 0 then .ninf else .nan
  | .ninf, .finite b => if 0 < b then .ninf else if b < 0 then .pinf else .nan
  | .pinf, .pinf => .pinf
  | .pinf, .ninf => .ninf
  | .ninf, .pinf => .ninf
  | .ninf, .ninf => .pinf
  | _, _ => .nan

/-- Python float division: any dividend over a zero float raises
`ZeroDivisionError` (modelled by `none`); otherwise IEEE (`inf/inf =
nan`, `finite/inf = 0` with the sign dropped, NaN propagates). -/
def pfDiv (x y : PFloat) : Option PFloat :=
  match y with
  | .finite b =>
    if b = 0 then none
    else some (match x with
      | .finite a => .finite (a / b)
      | .pinf => if 0 < b then .pinf else .ninf
      | .ninf => if 0 < b then .ninf else .pinf
      | .nan => .nan)
  | .pinf => some (match x with | .finite _ => .finite 0 | _ => .nan)
  | .ninf => some (match x with | .finite _ => .finite 0 | _ => .nan)
  | .nan => some .nan

/-- Python `int(x)` on a float: truncation toward zero; `ValueError` on
NaN and `OverflowError` on infinities, both modelled by `none`. -/
def pfToInt : PFloat → Option ℤ
  | .finite q => some (ratTrunc q)
  | _ => none

/-- Python `min(values)` on a nonempty list: left fold with `<`, so a
NaN head is absorbing (the empty-list `ValueError` never occurs, the
callers guard on emptiness; `nan` is a dummy). -/
def pymin : List PFloat → PFloat
  | [] => .nan
  | x :: xs => xs.foldl (fun acc y => if pfLt y acc then y else acc) x

/-- Python `max(values)` on a nonempty list: left fold with `>`. -/
def pymax : List PFloat → PFloat
  | [] => .nan
  | x :: xs => xs.foldl (fun acc y => if pfLt acc y then y else acc) x

/-- Effectful map over a list in the `Option` monad (structural, so it
evaluates by kernel reduction). -/
def optionMapM {α β : Type} (f : α → Option β) : List α → Option (List β)
  | [] => some []
  | x :: xs => (f x).bind fun y => (optionMapM f xs).map fun ys => y :: ys

/-- The nearest-index downsampling `[values[int(i * step)] for i in
range(width)]` with `step = len(values)/width`, modelled with exact
rational arithmetic; `none` models `ZeroDivisionError` for a zero
width and `IndexError` for an out-of-range index. -/
def sparkResample (values : List PFloat) (width : ℕ) :
    Option (List PFloat) :=
  if width = 0 then none
  else optionMapM
    (fun i : ℕ => values.get?
      ((ratTrunc ((i : ℚ) * (values.length : ℚ) / (width : ℚ))).toNat))
    (List.range width)

/-- One iteration of the `generate_ascii_sparkline` loop: the block
index `int(((v - min) / (max - min)) * 8)`, checked against the
9-glyph block string (Python indexing admits `-9 ≤ idx ≤ 8`); `none`
models the `ValueError`/`OverflowError`/`IndexError` raises. -/
def asciiCell (m M v : PFloat) : Option ℤ :=
  (pfDiv (pfSub v m) (pfSub M m)).bind fun d =>
    (pfToInt (pfMul d (.finite 8))).bind fun idx =>
      if -9 ≤ idx ∧ idx ≤ 8 then some idx else none

/-- `generate_ascii_sparkline` from `src/transforms/calculations.py`,
returning the sequence of block-glyph levels (the rendered string is
`blocks[idx]` per level, `blocks = " ▁▂▃▄▅▆▇█"`); `none` models an
uncaught exception. -/
def generate_ascii_sparkline (values : List PFloat) (width : ℕ) :
    Option (List ℤ) :=
  if values = [] then some []
  else
    let m := pymin values
    let M := pymax values
    if pfBeq M m then some (List.replicate (min values.length width) 4)
    else
      (if width < values.length then sparkResample values width
       else some values).bind fun vals =>
        optionMapM (asciiCell m M) vals

/-- The column height `int(((v - min) / (max - min)) * 4)` of
`generate_braille_sparkline`'s inner `normalize`. -/
def brailleCell (m M v : PFloat) : Option ℤ :=
  (pfDiv (pfSub v m) (pfSub M m)).bind fun d =>
    pfToInt (pfMul d (.finite 4))

/-- `LEFT_HEIGHTS` from `generate_braille_sparkline`. -/
def LEFT_HEIGHTS : List ℕ := [0, 64, 68, 70, 71]

/-- `RIGHT_HEIGHTS` from `generate_braille_sparkline`. -/
def RIGHT_HEIGHTS : List ℕ := [0, 128, 160, 176, 184]

/-- Python list indexing with an integer index into a `List ℕ`
(wrap-around for `-len ≤ i < 0`, `IndexError` otherwise). -/
def pyIndexNat (l : List ℕ) (i : ℤ) : Option ℕ :=
  pyIndex l i

/-- The pair loop of `generate_braille_sparkline`: two samples per
output character, `BRAILLE_BASE + LEFT_HEIGHTS[left] +
RIGHT_HEIGHTS[right]`; a lone trailing sample reuses its own height for
the right column. -/
def brailleChunks (m M : PFloat) : List PFloat → Option (List ℕ)
  | [] => some []
  | [x] =>
    (brailleCell m M x).bind fun lh =>
      (pyIndexNat LEFT_HEIGHTS lh).bind fun lv =>
        (pyIndexNat RIGHT_HEIGHTS lh).bind fun rv =>
          some [0x2800 + lv + rv]
  | x :: y :: rest =>
    (brailleCell m M x).bind fun lh =>
      (brailleCell m M y).bind fun rh =>
        (pyIndexNat LEFT_HEIGHTS lh).bind fun lv =>
          (pyIndexNat RIGHT_HEIGHTS rh).bind fun rv =>
            (brailleChunks m M rest).map fun tail =>
              (0x2800 + lv + rv) :: tail

/-- `generate_braille_sparkline` from `src/transforms/calculations.py`,
returning the braille code points; `none` models an uncaught
exception. -/
def generate_braille_sparkline (values : List PFloat) (width : ℕ) :
    Option (List ℕ) :=
  if values = [] then some []
  else
    let m := pymin values
    let M := pymax values
    if pfBeq M m then some (List.replicate width (0x2800 + 68 + 160))
    else
      let target := width * 2
      (if values.length = target then some values
       else if target < values.length then sparkResample values target
       else some (values ++ List.replicate (target - values.length)
                    (values.getLastD .nan))).bind fun vals =>
        brailleChunks m M vals

/-- An entry of the observation-dict list consumed by
`prepare_sparkline_data` (only the `"value"` key is read). -/
structure SparkObs where
  value : PFloat
deriving DecidableEq, Repr

/-- `prepare_sparkline_data` from `src/transforms/calculations.py`. -/
def prepare_sparkline_data (observations : List SparkObs) (points : ℕ) :
    List PFloat :=
  ((observations.take points).reverse).map (fun o => o.value)

/-- One entry of FRED's `observations` array: the `"value"` and
`"date"` fields (a missing key is `none`). -/
structure FredItem where
  value : Option String
  date : Option String
deriving DecidableEq, Repr

/-- One iteration of the `FREDConnector.normalize` loop. `Ok none`
models a `continue`; a missing `"date"` key raises `KeyError` through
`item["date"]`. -/
def fredStep (cfg : ConnectorConfig) (now : ℕ) (it : FredItem) :
    Except PyErr (Option Observation) :=
  let vstr := it.value.getD "."
  if vstr = "." ∨ vstr = "" then .ok none
  else
    match pyFloatOfString vstr with
    | none => .ok none
    | some q =>
      match it.date with
      | none => .error .keyError
      | some dt =>
        .ok (some { metric_id := cfg.metric_id, obs_date := dt,
                    value := pyRound (q * cfg.multiplier) cfg.decimals,
                    unit := cfg.unit, source := "fred",
                    retrieved_at := some now })

/-- The accumulation loop shared by the connectors that have no
`try/except` around the loop body: each item yields an optional
observation or an uncaught exception. -/
def collectSteps {α : Type} (step : α → Except PyErr (Option Observation)) :
    List α → Except PyErr (List Observation)
  | [] => .ok []
  | it :: rest =>
    match step it with
    | .error e => .error e
    | .ok none => collectSteps step rest
    | .ok (some o) =>
      match collectSteps step rest with
      | .error e => .error e
      | .ok tail => .ok (o :: tail)

/-- `FREDConnector.normalize` from `src/connectors/fred.py` (no final
sort: FRED's raw order is preserved). -/
def fredNormalize (cfg : ConnectorConfig) (now : ℕ) (raw : List FredItem) :
    Except PyErr (List Observation) :=
  collectSteps (fredStep cfg now) raw

/-- One entry of the World Bank data array (`item` may be JSON `null`;
`"date"` and `"value"` fields as delivered). -/
structure WBItem where
  date : Option String
  value : PyVal
deriving DecidableEq, Repr

/-- One iteration of the `WorldBankConnector.normalize` loop. -/
def wbStep (cfg : ConnectorConfig) (now : ℕ) (it : Option WBItem) :
    Except PyErr (Option Observation) :=
  match it with
  | none => .ok none
  | some item =>
    match item.value with
    | .null => .ok none
    | v =>
      let dateStr := item.date.getD ""
      let obsDate := if dateStr.toList.length = 4 then dateStr ++ "-01-01"
                     else dateStr
      match pyFloat v with
      | .error e => .error e
      | .ok q =>
        .ok (some { metric_id := cfg.metric_id, obs_date := obsDate,
                    value := pyRound (q * cfg.multiplier) cfg.decimals,
                    unit := cfg.unit, source := "worldbank",
                    retrieved_at := some now })

/-- `WorldBankConnector.normalize` from `src/connectors/worldbank.py`
(sorts by date descending before returning). -/
def worldbankNormalize (cfg : ConnectorConfig) (now : ℕ)
    (raw : List (Option WBItem)) : Except PyErr (List Observation) :=
  match collectSteps (wbStep cfg now) raw with
  | .error e => .error e
  | .ok l => .ok (sortObsDesc l)

/-- The quarter-to-month dictionary
`{"1": "01", "2": "04", "3": "07", "4": "10"}`. -/
def quarterMonthMap : String → Option String
  | "1" => some "01"
  | "2" => some "04"
  | "3" => some "07"
  | "4" => some "10"
  | _ => none

/-- `ECBConnector._parse_time_period` from `src/connectors/ecb.py`:
`-Q` splits into exactly year and quarter (a `KeyError` escapes the
quarter dictionary for quarters outside 1-4, a `ValueError` escapes the
tuple unpacking when `-Q` occurs more than once); otherwise length 7
appends `-01`, length 4 appends `-01-01`, anything else passes
through. -/
def ecbParseTimePeriod (p : String) : Except PyErr String :=
  match strSplitOn p "-Q" with
  | [_] =>
    if p.toList.length = 7 then .ok (p ++ "-01")
    else if p.toList.length = 4 then .ok (p ++ "-01-01")
    else .ok p
  | [y, q] =>
    match quarterMonthMap q with
    | some m => .ok (y ++ "-" ++ m ++ "-01")
    | none => .error .keyError
  | _ => .error .valueError

/-- `DBnomicsConnector._parse_period` from
`src/connectors/dbnomics.py`: same body as the ECB parser. -/
def dbnomicsParsePeriod (p : String) : Except PyErr String :=
  match strSplitOn p "-Q" with
  | [_] =>
    if p.toList.length = 7 then .ok (p ++ "-01")
    else if p.toList.length = 4 then .ok (p ++ "-01-01")
    else .ok p
  | [y, q] =>
    match quarterMonthMap q with
    | some m => .ok (y ++ "-" ++ m ++ "-01")
    | none => .error .keyError
  | _ => .error .valueError

/-- The DBnomics series document: parallel `period` and `value`
arrays. -/
structure DBRaw where
  period : List String
  value : List PyVal
deriving DecidableEq, Repr

/-- One iteration of the `DBnomicsConnector.normalize` loop: null
values are skipped, `float` failures are caught (`ValueError`,
`TypeError`) and skipped, then the period is parsed (uncaught). -/
def dbStep (cfg : ConnectorConfig) (now : ℕ) (pv : String × PyVal) :
    Except PyErr (Option Observation) :=
  match pv.2 with
  | .null => .ok none
  | v =>
    match pyFloatCaught v with
    | none => .ok none
    | some q =>
      match dbnomicsParsePeriod pv.1 with
      | .error e => .error e
      | .ok d =>
        .ok (some { metric_id := cfg.metric_id, obs_date := d,
                    value := pyRound (q * cfg.multiplier) cfg.decimals,
                    unit := cfg.unit, source := "dbnomics",
                    retrieved_at := some now })

/-- `DBnomicsConnector.normalize` from `src/connectors/dbnomics.py`. -/
def dbnomicsNormalize (cfg : ConnectorConfig) (now : ℕ) (raw : DBRaw) :
    Except PyErr (List Observation) :=
  if raw.period.length ≠ raw.value.length then .ok []
  else
    match collectSteps (dbStep cfg now) (raw.period.zip raw.value) with
    | .error e => .error e
    | .ok l => .ok (sortObsDesc l)

/-- `EStatDashboardConnector._parse_time_period` from
`src/connectors/estat_dashboard.py`: periods shorter than six
characters yield `""`; `M`/`Q`/`CY`/`FY` markers select the branch;
anything else falls through to `year + "-01-01"`. Slicing never
raises, so the surrounding `try` is dead and the function is total. -/
def estatParseTimePeriod (p : String) : String :=
  if p = "" ∨ p.toList.length < 6 then ""
  else if strContainsChar p 'M' then
    ⟨p.toList.take 4⟩ ++ "-" ++ ⟨(p.toList.drop 4).take 2⟩ ++ "-01"
  else if strContainsChar p 'Q' then
    ⟨p.toList.take 4⟩ ++ "-" ++
      ((quarterMonthMap ⟨(p.toList.drop 4).take 1⟩).getD "01") ++ "-01"
  else if strHasSubstr p "CY" then ⟨p.toList.take 4⟩ ++ "-01-01"
  else if strHasSubstr p "FY" then ⟨p.toList.take 4⟩ ++ "-04-01"
  else ⟨p.toList.take 4⟩ ++ "-01-01"

/-- The `VALUE` object of an e-Stat data item: the `"$"` value string
and the `"@time"` period. -/
structure EStatValue where
  dollar : Option String
  time : Option String
deriving DecidableEq, Repr

/-- One iteration of the `EStatDashboardConnector.normalize` loop
(`none` at the item level models a non-dict item or a missing `VALUE`
key); the body cannot raise. -/
def estatStep (cfg : ConnectorConfig) (now : ℕ) (it : Option EStatValue) :
    Option Observation :=
  match it with
  | none => none
  | some v =>
    let vs := v.dollar.getD ""
    if vs = "" then none
    else
      match pyFloatOfString vs with
      | none => none
      | some q =>
        let d := estatParseTimePeriod (v.time.getD "")
        if d = "" then none
        else
          some { metric_id := cfg.metric_id, obs_date := d,
                 value := pyRound (q * cfg.multiplier) cfg.decimals,
                 unit := cfg.unit, source := "estat_dashboard",
                 retrieved_at := some now }

/-- `EStatDashboardConnector.normalize` from
`src/connectors/estat_dashboard.py`; it is total, but is typed in
`Except` like the other connectors so that never-raising is a
statement, not a typing artefact. -/
def estatNormalize (cfg : ConnectorConfig) (now : ℕ)
    (raw : List (Option EStatValue)) : Except PyErr (List Observation) :=
  .ok (sortObsDesc (raw.filterMap (estatStep cfg now)))

/-- `OECDConnector._parse_time_period` from `src/connectors/oecd.py`:
the monthly test (`len == 7 and "-" in period`) runs before the
quarterly test; the quarter digit is `period[-1]` looked up with
default `"01"`; the whole body is wrapped in `except Exception`, and
no branch can raise. -/
def oecdParseTimePeriod (p : String) : String :=
  if p = "" then ""
  else if p.toList.length = 7 ∧ strContainsChar p '-' then p ++ "-01"
  else if strContainsChar p 'Q' then
    ⟨p.toList.take 4⟩ ++ "-" ++
      ((quarterMonthMap ⟨p.toList.drop (p.toList.length - 1)⟩).getD "01") ++ "-01"
  else if p.toList.length = 4 ∧ p.toList.all Char.isDigit then
    p ++ "-01-01"
  else ""

/-- One entry of an SDMX observation dimension's `values` array (only
the `"id"` field is read; a missing key is `none`). -/
structure ECBDimValue where
  id : Option String
deriving DecidableEq, Repr

/-- One SDMX observation dimension: its `"id"` and its `values`. -/
structure ECBDim where
  id : Option String
  values : List ECBDimValue
deriving DecidableEq, Repr

/-- One SDMX series: its `observations` dict, in insertion order, as
index-string keys and value arrays. -/
structure ECBSeriesData where
  observations : List (String × List PyVal)
deriving DecidableEq, Repr

/-- One SDMX dataset: its `series` dict in insertion order
(dimension-key string to series). -/
structure ECBDataSet where
  series : List (String × ECBSeriesData)
deriving DecidableEq, Repr

/-- The SDMX-JSON payload as `ECBConnector.normalize` reads it:
`structure.dimensions.observation` (missing levels behave as the empty
list, matching the `.get(..., {})` chains) and `dataSets`. -/
structure ECBPayload where
  obsDims : List ECBDim
  dataSets : List ECBDataSet
deriving DecidableEq, Repr

/-- One iteration of the `ECBConnector.normalize` loop over
`obs_data.items()`: `int(idx_str)` may raise `ValueError` (uncaught by
the surrounding `except`), an index at or beyond `len(time_values)` is
skipped, `time_values[idx]` may raise `IndexError` (caught), a missing
or null value is skipped, a `None` time period raises `TypeError` in
`_parse_time_period` (caught), the period parse may raise `KeyError`
(caught) or `ValueError` (uncaught), and `float(value)` may raise
`ValueError` (uncaught) or `TypeError` (caught). -/
def ecbItem (cfg : ConnectorConfig) (now : ℕ) (tv : List (Option String))
    (it : String × List PyVal) : Except PyErr (Option Observation) :=
  match pyParseInt it.1 with
  | none => .error .valueError
  | some idx =>
    if (tv.length : ℤ) ≤ idx then .ok none
    else
      match pyIndex tv idx with
      | none => .error .indexError
      | some tp =>
        let value : PyVal := match it.2 with
          | [] => .null
          | x :: _ => x
        match value with
        | .null => .ok none
        | v =>
          match (match tp with
                 | none => (.error .typeError : Except PyErr String)
                 | some s => ecbParseTimePeriod s) with
          | .error e => .error e
          | .ok d =>
            match pyFloat v with
            | .error e => .error e
            | .ok q =>
              .ok (some { metric_id := cfg.metric_id, obs_date := d,
                          value := pyRound (q * cfg.multiplier) cfg.decimals,
                          unit := cfg.unit, source := "ecb",
                          retrieved_at := some now })

/-- Is this exception class caught by `except (KeyError, IndexError,
TypeError)` in `ECBConnector.normalize`? -/
def ecbCaught : PyErr → Bool
  | .keyError => true
  | .indexError => true
  | .typeError => true
  | _ => false

/-- The `ECBConnector.normalize` loop with its `try/except`: a caught
exception aborts the loop but keeps the observations collected so far;
an uncaught one propagates. -/
def ecbLoop (cfg : ConnectorConfig) (now : ℕ) (tv : List (Option String)) :
    List (String × List PyVal) → List Observation →
    Except PyErr (List Observation)
  | [], acc => .ok acc
  | it :: rest, acc =>
    match ecbItem cfg now tv it with
    | .ok none => ecbLoop cfg now tv rest acc
    | .ok (some o) => ecbLoop cfg now tv rest (acc ++ [o])
    | .error e => if ecbCaught e then .ok acc else .error e

/-- `ECBConnector.normalize` from `src/connectors/ecb.py`: find the
`TIME_PERIOD` observation dimension, read the first series of the
first dataset (`list(series.values())[0]`), loop, then sort
descending. -/
def ecbNormalize (cfg : ConnectorConfig) (now : ℕ) (raw : ECBPayload) :
    Except PyErr (List Observation) :=
  let tv : List (Option String) :=
    match raw.obsDims.find? (fun d => d.id == some "TIME_PERIOD") with
    | some dim => dim.values.map (fun v => v.id)
    | none => []
  if tv.isEmpty then .ok []
  else
    match raw.dataSets with
    | [] => .ok []
    | ds :: _ =>
      match ds.series with
      | [] => .ok []
      | (_, s0) :: _ =>
        match ecbLoop cfg now tv s0.observations [] with
        | .error e => .error e
        | .ok l => .ok (sortObsDesc l)

/-- The FRED test configuration of the end-to-end scenario
(`multiplier=1.0`, `decimals=2`). -/
def cfgFred : ConnectorConfig :=
  { metric_id := "us_gdp", multiplier := 1, decimals := 2, unit := some "$B" }

/-- The World Bank test configuration of the end-to-end scenario
(`multiplier=1e-12`, which is exactly `10⁻¹²` in this model; the float
product `105000000000000 * 1e-12` also rounds to exactly `105.0` in
IEEE double precision, so the model agrees with CPython here). -/
def cfgWB : ConnectorConfig :=
  { metric_id := "global_gdp", multiplier := 1 / 10 ^ 12, decimals := 2,
    unit := some "$T" }

/-- A generic test configuration (`multiplier=1.0`, `decimals=2`). -/
def cfgStd : ConnectorConfig :=
  { metric_id := "m", multiplier := 1, decimals := 2, unit := some "u" }

/-- Thirteen months of synthetic data, date descending: month `M`
(counting 2023-01 as `M = 0`) carries value `100 + M`, so 2023-01 is
pinned to `100` and 2024-01, the only month whose year-ago date is in
the list, carries `112`. -/
def synthetic13 : List Observation :=
  [ { metric_id := "m", obs_date := "2024-01-01", value := 112, source := "s" },
    { metric_id := "m", obs_date := "2023-12-01", value := 111, source := "s" },
    { metric_id := "m", obs_date := "2023-11-01", value := 110, source := "s" },
    { metric_id := "m", obs_date := "2023-10-01", value := 109, source := "s" },
    { metric_id := "m", obs_date := "2023-09-01", value := 108, source := "s" },
    { metric_id := "m", obs_date := "2023-08-01", value := 107, source := "s" },
    { metric_id := "m", obs_date := "2023-07-01", value := 106, source := "s" },
    { metric_id := "m", obs_date := "2023-06-01", value := 105, source := "s" },
    { metric_id := "m", obs_date := "2023-05-01", value := 104, source := "s" },
    { metric_id := "m", obs_date := "2023-04-01", value := 103, source := "s" },
    { metric_id := "m", obs_date := "2023-03-01", value := 102, source := "s" },
    { metric_id := "m", obs_date := "2023-02-01", value := 101, source := "s" },
    { metric_id := "m", obs_date := "2023-01-01", value := 100, source := "s" } ]

/-- An ascending-by-date FRED payload (the order FRED would deliver
with `sort_order=asc`; `normalize` is order-preserving). -/
def fredAscRaw : List FredItem :=
  [ { value := some "1.0", date := some "2024-01-01" },
    { value := some "2.0", date := some "2024-02-01" } ]

/-- What `FREDConnector.normalize` produces from `fredAscRaw`:
ascending dates, not descending. -/
def fredAscOut : List Observation :=
  [ { metric_id := "us_gdp", obs_date := "2024-01-01", value := 1,
      unit := some "$B", source := "fred", retrieved_at := some 0 },
    { metric_id := "us_gdp", obs_date := "2024-02-01", value := 2,
      unit := some "$B", source := "fred", retrieved_at := some 0 } ]

/-- The rational carried by a finite float (0 on the specials); used
to state facts about all-finite value lists. -/
def pfVal : PFloat → ℚ
  | .finite q => q
  | _ => 0

theorem pyRound_zero (n : ℕ) : pyRound 0 n = 0 := by
  norm_num [pyRound, rndHalfEven]

/-- C3: `FREDConnector.normalize` on the two-point scenario payload
with `multiplier=1.0`, `decimals=2` yields exactly one Observation,
dated `2024-10-01` with value `29000.50`; the `"."` point is dropped
as FRED's missing-value sentinel. -/
theorem c3_fred_missing_value_scenario :
    fredNormalize cfgFred 0
      [ { value := some "29000.5", date := some "2024-10-01" },
        { value := some ".", date := some "2024-07-01" } ]
    = .ok [ { metric_id := "us_gdp", obs_date := "2024-10-01",
              value := 29000.5, unit := some "$B", source := "fred",
              retrieved_at := some 0 } ] := by
  simp +decide [fredNormalize, collectSteps, fredStep, cfgFred,
    pyFloatOfString, decimalVal?, digitsValD, List.takeWhile, List.dropWhile]
  norm_num [pyRound, rndHalfEven]

/-- C9: `WorldBankConnector.normalize` on `[{"date":"2023","value":
105000000000000}]` with `multiplier=1e-12` yields one Observation
dated `2023-01-01` with value `105.0`. -/
theorem c9_worldbank_year_scenario :
    worldbankNormalize cfgWB 0
      [some { date := some "2023", value := .num 105000000000000 }]
    = .ok [ { metric_id := "global_gdp", obs_date := "2023-01-01",
              value := 105, unit := some "$T", source := "worldbank",
              retrieved_at := some 0 } ] := by
  simp +decide [worldbankNormalize, collectSteps, wbStep, cfgWB, pyFloat,
    sortObsDesc, List.insertionSort, List.orderedInsert]
  norm_num [pyRound, rndHalfEven]

/-- C2 (failing evaluation): `OECDConnector._parse_time_period` sends
`"2024-Q1"` through the monthly branch (`len == 7 and "-" in period`
matches first), producing `"2024-Q1-01"` instead of the documented
`"2024-01-01"`; the monthly form itself is handled correctly. -/
theorem c2_oecd_quarterly_shadowed :
    oecdParseTimePeriod "2024-Q1" = "2024-Q1-01" ∧
    oecdParseTimePeriod "2024-11" = "2024-11-01" := by decide

/-- C4 (counterexample): at `x = 0` the claim `calculate_change(x, x)
== (0, 0)` fails: the zero-previous branch returns a null percent. -/
theorem c4_zero_zero_counterexample :
    calculate_change 0 (some 0) ≠ (some 0, some 0) := by
  simp [calculate_change]

/-- C4 (amended): `calculate_change(x, x) == (0, 0)` for finite
`x ≠ 0`, while `calculate_change(0, 0) == (0, None)`;
`calculate_change(x, 0) == (x, None)` and
`calculate_change(x, None) == (None, None)`. -/
theorem c4_calculate_change_amended :
    (∀ x : ℚ, x ≠ 0 → calculate_change x (some x) = (some 0, some 0)) ∧
    calculate_change 0 (some 0) = (some 0, none) ∧
    (∀ x : ℚ, calculate_change x (some 0) = (some x, none)) ∧
    (∀ x : ℚ, calculate_change x none = (none, none)) := by
  refine ⟨fun x hx => ?_, by simp [calculate_change], fun x => ?_,
    fun x => rfl⟩
  · simp [calculate_change, hx, pyRound_zero]
  · simp [calculate_change]

/-- Witness for C4: the amended theorem applied at `x = 5`, `x = 7`
and `x = 3`. -/
theorem c4_calculate_change_amended_witness :
    calculate_change 5 (some 5) = (some 0, some 0) ∧
    calculate_change 7 (some 0) = (some 7, none) ∧
    calculate_change 3 none = (none, none) :=
  ⟨c4_calculate_change_amended.1 5 (by decide),
   c4_calculate_change_amended.2.2.1 7,
   c4_calculate_change_amended.2.2.2 3⟩

/-- C10: `ECBConnector.normalize` reads only the first series of the
first dataset: dropping every series after the first changes nothing,
whatever those series contain. -/
theorem c10_ecb_first_series_only (cfg : ConnectorConfig) (now : ℕ)
    (dims : List ECBDim) (k : String) (s0 : ECBSeriesData)
    (rest : List (String × ECBSeriesData)) (more : List ECBDataSet) :
    ecbNormalize cfg now ⟨dims, ⟨(k, s0) :: rest⟩ :: more⟩
      = ecbNormalize cfg now ⟨dims, ⟨[(k, s0)]⟩ :: more⟩ := rfl

/-- C7 (counterexample): an all-infinite input hits the flat-line
branch (`max == min`) of both renderers and is rendered without any
exception: the ASCII variant yields the mid-level glyph (level 4), the
braille variant the mid-height character `0x28E4 = 10468`, repeated. -/
theorem c7_nonfinite_flat_counterexample :
    generate_ascii_sparkline [PFloat.pinf] 10 = some [4] ∧
    generate_braille_sparkline [PFloat.pinf] 8
      = some (List.replicate 8 10468) := by decide

/-- C1 (counterexample): `DBnomicsConnector.normalize` raises
`KeyError` on the quarter `"2024-Q5"` (the quarter dictionary has keys
`1`-`4` only and the lookup is unguarded), and
`EStatDashboardConnector.normalize` emits an Observation dated
`2024-01-01` for the unrecognized period `"2024XX00"` instead of
skipping the point. -/
theorem c1_malformed_period_counterexample :
    dbnomicsNormalize cfgStd 0 { period := ["2024-Q5"], value := [.num 1] }
      = .error .keyError ∧
    estatNormalize cfgStd 0
      [some { dollar := some "1.0", time := some "2024XX00" }]
    = .ok [ { metric_id := "m", obs_date := "2024-01-01", value := 1,
              unit := some "u", source := "estat_dashboard",
              retrieved_at := some 0 } ] := by
  constructor
  · decide
  · simp +decide [estatNormalize, estatStep, cfgStd, estatParseTimePeriod,
      strContainsChar, strHasSubstr, hasSubstrL, quarterMonthMap,
      pyFloatOfString, decimalVal?, digitsValD, List.takeWhile,
      List.dropWhile, sortObsDesc, List.insertionSort, List.orderedInsert]
    norm_num [pyRound, rndHalfEven]

/-- C1 (amended): e-Stat's `normalize` never raises, maps an
unrecognized period of length at least six to a `YYYY-01-01` date
(emitting an Observation, as the counterexample shows) and yields no
Observation only for periods shorter than six characters; DBnomics's
`normalize` raises `KeyError` on a `YYYY-QN` period with `N` outside
1-4 even when the other points are well-formed. -/
theorem c1_malformed_period_amended :
    (∀ (cfg : ConnectorConfig) (now : ℕ) (raw : List (Option EStatValue)),
      ∃ l, estatNormalize cfg now raw = .ok l) ∧
    (∀ p : String, ¬ p.toList.length < 6 →
      strContainsChar p 'M' = false → strContainsChar p 'Q' = false →
      strHasSubstr p "CY" = false → strHasSubstr p "FY" = false →
      estatParseTimePeriod p = (⟨p.toList.take 4⟩ : String) ++ "-01-01") ∧
    (∀ p : String, p.toList.length < 6 → estatParseTimePeriod p = "") ∧
    (∀ (cfg : ConnectorConfig) (now : ℕ),
      dbnomicsNormalize cfg now
        { period := ["2024-01", "2024-Q5"], value := [.num 2, .num 1] }
      = .error .keyError) := by
  refine ⟨fun cfg now raw => ⟨_, rfl⟩, fun p hlen hM hQ hCY hFY => ?_,
    fun p hlen => ?_, fun cfg now => ?_⟩
  · have hp : p ≠ "" := by
      intro h
      subst h
      simp at hlen
    simp [strHasSubstr, String.toList] at hCY hFY
    simp at hlen
    have hlen' : ¬ p.length < 6 := by omega
    simp [estatParseTimePeriod, hp, hlen', hM, hQ, strHasSubstr,
      String.toList, hCY, hFY]
  · simp at hlen
    simp [estatParseTimePeriod, hlen]
  · simp +decide [dbnomicsNormalize, collectSteps, dbStep, pyFloatCaught,
      pyFloat, dbnomicsParsePeriod, strSplitOn, splitGo, quarterMonthMap]

/-- Witness for C1: the amended theorem applied to the empty e-Stat
payload, to the periods `"2024XX00"` and `"24"`, and to the concrete
DBnomics payload under the standard test configuration. -/
theorem c1_malformed_period_amended_witness :
    (∃ l, estatNormalize cfgStd 0 [] = .ok l) ∧
    estatParseTimePeriod "2024XX00"
      = (⟨("2024XX00" : String).toList.take 4⟩ : String) ++ "-01-01" ∧
    estatParseTimePeriod "24" = "" ∧
    dbnomicsNormalize cfgStd 0
      { period := ["2024-01", "2024-Q5"], value := [.num 2, .num 1] }
    = .error .keyError :=
  ⟨c1_malformed_period_amended.1 cfgStd 0 [],
   c1_malformed_period_amended.2.1 "2024XX00" (by decide) (by decide)
     (by decide) (by decide) (by decide),
   c1_malformed_period_amended.2.2.1 "24" (by decide),
   c1_malformed_period_amended.2.2.2 cfgStd 0⟩

theorem listLexLe_total (as bs : List Char) :
    listLexLe as bs = true ∨ listLexLe bs as = true := by
  induction as generalizing bs with
  | nil => left; rfl
  | cons a as ih =>
    cases bs with
    | nil => right; rfl
    | cons b bs =>
      by_cases hab : a = b
      · subst hab
        simpa [listLexLe] using ih bs
      · have hne : a.toNat ≠ b.toNat := fun h => hab (Char.ext (UInt32.ext h))
        rcases Nat.lt_or_ge a.toNat b.toNat with h | h
        · left; simp [listLexLe, hab, h]
        · right
          have hlt : b.toNat < a.toNat := lt_of_le_of_ne h (Ne.symm hne)
          have hba : ¬ b = a := fun hh => hab hh.symm
          simp [listLexLe, hba, hlt]

theorem listLexLe_trans (as bs cs : List Char)
    (h1 : listLexLe as bs = true) (h2 : listLexLe bs cs = true) :
    listLexLe as cs = true := by
  induction as generalizing bs cs with
  | nil => rfl
  | cons a as ih =>
    cases bs with
    | nil => simp [listLexLe] at h1
    | cons b bs =>
      cases cs with
      | nil => simp [listLexLe] at h2
      | cons c cs =>
        by_cases hab : a = b <;> by_cases hbc : b = c
        · subst hab; subst hbc
          simp only [listLexLe, if_pos rfl] at h1 h2 ⊢
          exact ih bs cs h1 h2
        · subst hab
          simp only [listLexLe, if_pos rfl] at h1
          simpa [listLexLe, hbc] using h2
        · subst hbc
          simpa [listLexLe, hab] using h1
        · have h1l : a.toNat < b.toNat := by simpa [listLexLe, hab] using h1
          have h2l : b.toNat < c.toNat := by simpa [listLexLe, hbc] using h2
          have hac : a.toNat < c.toNat := Nat.lt_trans h1l h2l
          have hne : ¬ a = c := by
            intro h
            subst h
            exact Nat.lt_irrefl _ hac
          simp [listLexLe, hne, hac]

instance : IsTotal Observation obsDescRel :=
  ⟨fun a b => (listLexLe_total b.obs_date.toList a.obs_date.toList).elim
    Or.inl Or.inr⟩

instance : IsTrans Observation obsDescRel :=
  ⟨fun _ _ _ h1 h2 => listLexLe_trans _ _ _ h2 h1⟩

theorem sortObsDesc_sorted (l : List Observation) :
    sortedByDateDesc (sortObsDesc l) :=
  List.sorted_insertionSort obsDescRel l

/-- C6 (counterexample): `FREDConnector.normalize` does not sort; on an
ascending-by-date raw list the output is ascending, not descending. -/
theorem c6_fred_not_sorted_counterexample :
    fredNormalize cfgFred 0 fredAscRaw = .ok fredAscOut ∧
    ¬ sortedByDateDesc fredAscOut := by
  constructor
  · simp +decide [fredNormalize, collectSteps, fredStep, cfgFred, fredAscRaw,
      fredAscOut, pyFloatOfString, decimalVal?, digitsValD, List.takeWhile,
      List.dropWhile]
    norm_num [pyRound, rndHalfEven]
  · decide

theorem collectSteps_mem {α : Type}
    (step : α → Except PyErr (Option Observation)) :
    ∀ (raw : List α) (l : List Observation) (o : Observation),
      collectSteps step raw = .ok l → o ∈ l →
      ∃ it ∈ raw, step it = .ok (some o) := by
  intro raw
  induction raw with
  | nil =>
    intro l o h ho
    simp [collectSteps] at h
    subst h
    cases ho
  | cons it rest ih =>
    intro l o h ho
    simp only [collectSteps] at h
    cases hstep : step it with
    | error e => rw [hstep] at h; cases h
    | ok oo =>
      rw [hstep] at h
      cases oo with
      | none =>
        obtain ⟨it', hmem, hstep'⟩ := ih l o h ho
        exact ⟨it', List.mem_cons_of_mem _ hmem, hstep'⟩
      | some o' =>
        cases hrec : collectSteps step rest with
        | error e => rw [hrec] at h; cases h
        | ok tail =>
          rw [hrec] at h
          cases h
          rcases List.mem_cons.mp ho with rfl | hmem
          · exact ⟨it, List.mem_cons_self _ _, hstep⟩
          · obtain ⟨it', hmem', hstep'⟩ := ih tail o hrec hmem
            exact ⟨it', List.mem_cons_of_mem _ hmem', hstep'⟩

theorem fredStep_date (cfg : ConnectorConfig) (now : ℕ) (it : FredItem)
    (o : Observation) (h : fredStep cfg now it = .ok (some o)) :
    it.date = some o.obs_date := by
  simp only [fredStep] at h
  by_cases hc : it.value.getD "." = "." ∨ it.value.getD "." = ""
  · simp [hc] at h
  · rw [if_neg hc] at h
    cases hq : pyFloatOfString (it.value.getD ".") with
    | none => rw [hq] at h; cases h
    | some q =>
      rw [hq] at h
      cases hdt : it.date with
      | none => rw [hdt] at h; cases h
      | some dt => rw [hdt] at h; cases h; rfl

theorem fredNormalize_order (cfg : ConnectorConfig) (now : ℕ) :
    ∀ (raw : List FredItem),
      raw.Pairwise (fun a b => ∀ da db, a.date = some da →
        b.date = some db → pyStrLe db da = true) →
      ∀ (l : List Observation), fredNormalize cfg now raw = .ok l →
      sortedByDateDesc l := by
  intro raw
  induction raw with
  | nil =>
    intro _ l h
    simp [fredNormalize, collectSteps] at h
    subst h
    exact List.Pairwise.nil
  | cons it rest ih =>
    intro hsorted l h
    rcases List.pairwise_cons.mp hsorted with ⟨hrel, hrest⟩
    simp only [fredNormalize, collectSteps] at h
    cases hstep : fredStep cfg now it with
    | error e => rw [hstep] at h; cases h
    | ok oo =>
      rw [hstep] at h
      cases oo with
      | none => exact ih hrest l h
      | some o =>
        cases hrec : collectSteps (fredStep cfg now) rest with
        | error e => rw [hrec] at h; cases h
        | ok tail =>
          rw [hrec] at h
          cases h
          refine List.pairwise_cons.mpr ⟨fun o' ho' => ?_, ih hrest tail hrec⟩
          obtain ⟨it', hmem', hstep'⟩ :=
            collectSteps_mem (fredStep cfg now) rest tail o' hrec ho'
          exact hrel it' hmem' o.obs_date o'.obs_date
            (fredStep_date cfg now it o hstep)
            (fredStep_date cfg now it' o' hstep')

/-- C6 (amended): `WorldBankConnector.normalize` and
`ECBConnector.normalize` always return a list sorted by `obs_date`
descending (they sort before returning); `FREDConnector.normalize`
preserves the raw order (its `fetch` requests `sort_order=desc`), so
its output is descending whenever the raw list's dates are descending
— but not for arbitrary raw order, as the counterexample shows. -/
theorem c6_sorting_amended :
    (∀ (cfg : ConnectorConfig) (now : ℕ) (raw : List (Option WBItem))
      (l : List Observation), worldbankNormalize cfg now raw = .ok l →
      sortedByDateDesc l) ∧
    (∀ (cfg : ConnectorConfig) (now : ℕ) (raw : ECBPayload)
      (l : List Observation), ecbNormalize cfg now raw = .ok l →
      sortedByDateDesc l) ∧
    (∀ (cfg : ConnectorConfig) (now : ℕ) (raw : List FredItem)
      (l : List Observation),
      raw.Pairwise (fun a b => ∀ da db, a.date = some da →
        b.date = some db → pyStrLe db da = true) →
      fredNormalize cfg now raw = .ok l → sortedByDateDesc l) := by
  refine ⟨fun cfg now raw l h => ?_, fun cfg now raw l h => ?_,
    fun cfg now raw l hs h => fredNormalize_order cfg now raw hs l h⟩
  · unfold worldbankNormalize at h
    cases hc : collectSteps (wbStep cfg now) raw with
    | error e => rw [hc] at h; cases h
    | ok l0 =>
      rw [hc] at h
      cases h
      exact sortObsDesc_sorted l0
  · unfold ecbNormalize at h
    cases hfind : List.find? (fun d => d.id == some "TIME_PERIOD") raw.obsDims with
    | none =>
      rw [hfind] at h
      simp at h
      subst h
      exact List.Pairwise.nil
    | some dim =>
      rw [hfind] at h
      by_cases hemp : (dim.values.map (fun v => v.id)).isEmpty
      · simp [hemp] at h
        subst h
        exact List.Pairwise.nil
      · simp only [hemp, Bool.false_eq_true, if_neg, if_false] at h
        cases hds : raw.dataSets with
        | nil =>
          rw [hds] at h
          simp at h
          subst h
          exact List.Pairwise.nil
        | cons ds rest =>
          rw [hds] at h
          dsimp only at h
          cases hser : ds.series with
          | nil =>
            rw [hser] at h
            simp at h
            subst h
            exact List.Pairwise.nil
          | cons kv rest2 =>
            obtain ⟨k0, s0⟩ := kv
            rw [hser] at h
            dsimp only at h
            cases hloop : ecbLoop cfg now (dim.values.map (fun v => v.id))
                s0.observations [] with
            | error e => rw [hloop] at h; cases h
            | ok l0 =>
              rw [hloop] at h
              cases h
              exact sortObsDesc_sorted l0

/-- Witness for C6: the amended theorem applied to a concrete
descending FRED payload and to the World Bank scenario payload. -/
theorem c6_sorting_amended_witness :
    sortedByDateDesc
      [ { metric_id := "us_gdp", obs_date := "2024-02-01", value := 2,
          unit := some "$B", source := "fred", retrieved_at := some 0 },
        { metric_id := "us_gdp", obs_date := "2024-01-01", value := 1,
          unit := some "$B", source := "fred", retrieved_at := some 0 } ] ∧
    sortedByDateDesc
      [ { metric_id := "global_gdp", obs_date := "2023-01-01", value := 105,
          unit := some "$T", source := "worldbank",
          retrieved_at := some 0 } ] := by
  constructor
  · refine c6_sorting_amended.2.2 cfgFred 0
      [ { value := some "2.0", date := some "2024-02-01" },
        { value := some "1.0", date := some "2024-01-01" } ] _ ?_ ?_
    · refine List.pairwise_cons.mpr ⟨?_, List.pairwise_singleton _ _⟩
      intro b hb da db hda hdb
      rcases List.mem_singleton.mp hb with rfl
      cases hda
      cases hdb
      decide
    simp +decide [fredNormalize, collectSteps, fredStep, cfgFred,
      pyFloatOfString, decimalVal?, digitsValD, List.takeWhile,
      List.dropWhile]
    norm_num [pyRound, rndHalfEven]
  · exact c6_sorting_amended.1 cfgWB 0
      [some { date := some "2023", value := .num 105000000000000 }] _
      (by
        simp +decide [worldbankNormalize, collectSteps, wbStep, cfgWB,
          pyFloat, sortObsDesc, List.insertionSort, List.orderedInsert]
        norm_num [pyRound, rndHalfEven])

theorem pfLt_pinf_left (y : PFloat) : pfLt .pinf y = false := by
  cases y <;> rfl

theorem pfLt_nan_left (y : PFloat) : pfLt .nan y = false := by
  cases y <;> rfl

theorem pfLt_ninf_right (y : PFloat) : pfLt y .ninf = false := by
  cases y <;> rfl

theorem pfLt_nan_right (y : PFloat) : pfLt y .nan = false := by
  cases y <;> rfl

theorem pfSub_nan_left (y : PFloat) : pfSub .nan y = .nan := by
  cases y <;> rfl

theorem pfSub_nan_right (y : PFloat) : pfSub y .nan = .nan := by
  cases y <;> rfl

theorem foldMax_absorb (l : List PFloat) (acc : PFloat)
    (h : acc = .pinf ∨ acc = .nan) :
    l.foldl (fun a y => if pfLt a y then y else a) acc = .pinf ∨
    l.foldl (fun a y => if pfLt a y then y else a) acc = .nan := by
  induction l generalizing acc with
  | nil => simpa using h
  | cons y ys ih =>
    rcases h with rfl | rfl
    · simpa [pfLt_pinf_left] using ih .pinf (Or.inl rfl)
    · simpa [pfLt_nan_left] using ih .nan (Or.inr rfl)

theorem foldMax_pinf_mem (l : List PFloat) (acc : PFloat)
    (h : .pinf ∈ l) :
    l.foldl (fun a y => if pfLt a y then y else a) acc = .pinf ∨
    l.foldl (fun a y => if pfLt a y then y else a) acc = .nan := by
  induction l generalizing acc with
  | nil => cases h
  | cons y ys ih =>
    rcases List.mem_cons.mp h with rfl | hmem
    · have hstep : (if pfLt acc .pinf then PFloat.pinf else acc) = .pinf ∨
          (if pfLt acc .pinf then PFloat.pinf else acc) = .nan := by
        cases acc <;> simp [pfLt]
      simpa using foldMax_absorb ys _ hstep
    · exact ih _ hmem

theorem pymax_nonfinite_of_pinf_mem (vs : List PFloat) (h : .pinf ∈ vs) :
    pymax vs = .pinf ∨ pymax vs = .nan := by
  cases vs with
  | nil => cases h
  | cons x xs =>
    rcases List.mem_cons.mp h with rfl | hmem
    · exact foldMax_absorb xs .pinf (Or.inl rfl)
    · exact foldMax_pinf_mem xs x hmem

theorem foldMin_absorb (l : List PFloat) (acc : PFloat)
    (h : acc = .ninf ∨ acc = .nan) :
    l.foldl (fun a y => if pfLt y a then y else a) acc = .ninf ∨
    l.foldl (fun a y => if pfLt y a then y else a) acc = .nan := by
  induction l generalizing acc with
  | nil => simpa using h
  | cons y ys ih =>
    rcases h with rfl | rfl
    · simpa [pfLt_ninf_right] using ih .ninf (Or.inl rfl)
    · simpa [pfLt_nan_right] using ih .nan (Or.inr rfl)

theorem foldMin_ninf_mem (l : List PFloat) (acc : PFloat)
    (h : .ninf ∈ l) :
    l.foldl (fun a y => if pfLt y a then y else a) acc = .ninf ∨
    l.foldl (fun a y => if pfLt y a then y else a) acc = .nan := by
  induction l generalizing acc with
  | nil => cases h
  | cons y ys ih =>
    rcases List.mem_cons.mp h with rfl | hmem
    · have hstep : (if pfLt .ninf acc then PFloat.ninf else acc) = .ninf ∨
          (if pfLt .ninf acc then PFloat.ninf else acc) = .nan := by
        cases acc <;> simp [pfLt]
      simpa using foldMin_absorb ys _ hstep
    · exact ih _ hmem

theorem pymin_nonfinite_of_ninf_mem (vs : List PFloat) (h : .ninf ∈ vs) :
    pymin vs = .ninf ∨ pymin vs = .nan := by
  cases vs with
  | nil => cases h
  | cons x xs =>
    rcases List.mem_cons.mp h with rfl | hmem
    · exact foldMin_absorb xs .ninf (Or.inl rfl)
    · exact foldMin_ninf_mem xs x hmem

theorem pfToInt_mul_nonfinite (d : PFloat) (k : ℚ)
    (h : d.isFinite = false) : pfToInt (pfMul d (.finite k)) = none := by
  cases d with
  | finite q => simp [PFloat.isFinite] at h
  | pinf =>
    simp only [pfMul]
    split <;> try rfl
    split <;> rfl
  | ninf =>
    simp only [pfMul]
    split <;> try rfl
    split <;> rfl
  | nan => rfl

/-- The normalized quotient `(v - min)/(max - min)` of a non-finite
sample is either a raised `ZeroDivisionError` or a non-finite float,
whenever `max == min` is false. -/
theorem div_nonfinite_core (vs : List PFloat) (v : PFloat) (hv : v ∈ vs)
    (hnf : v.isFinite = false)
    (hne : pfBeq (pymax vs) (pymin vs) = false) :
    pfDiv (pfSub v (pymin vs)) (pfSub (pymax vs) (pymin vs)) = none ∨
    ∃ d, pfDiv (pfSub v (pymin vs)) (pfSub (pymax vs) (pymin vs)) = some d
      ∧ d.isFinite = false := by
  cases v with
  | finite q => simp [PFloat.isFinite] at hnf
  | nan =>
    rw [pfSub_nan_left]
    cases hden : pfSub (pymax vs) (pymin vs) with
    | finite b =>
      by_cases hb : b = 0
      · subst hb; left; simp [pfDiv]
      · right; exact ⟨.nan, by simp [pfDiv, hb], rfl⟩
    | pinf => right; exact ⟨.nan, rfl, rfl⟩
    | ninf => right; exact ⟨.nan, rfl, rfl⟩
    | nan => right; exact ⟨.nan, rfl, rfl⟩
  | pinf =>
    rcases pymax_nonfinite_of_pinf_mem vs hv with hM | hM
    · rw [hM]
      cases hm : pymin vs with
      | pinf => rw [hM, hm] at hne; simp [pfBeq] at hne
      | nan => rw [pfSub_nan_right]; right; exact ⟨.nan, by simp [pfDiv], rfl⟩
      | finite a => right; exact ⟨.nan, by simp [pfSub, pfDiv], rfl⟩
      | ninf => right; exact ⟨.nan, by simp [pfSub, pfDiv], rfl⟩
    · rw [hM, pfSub_nan_left]
      right
      exact ⟨.nan, by simp [pfDiv], rfl⟩
  | ninf =>
    rcases pymin_nonfinite_of_ninf_mem vs hv with hm | hm
    · rw [hm]
      have hnum : pfSub .ninf .ninf = .nan := rfl
      rw [hnum]
      cases hden : pfSub (pymax vs) .ninf with
      | finite b =>
        by_cases hb : b = 0
        · subst hb; left; simp [pfDiv]
        · right; exact ⟨.nan, by simp [pfDiv, hb], rfl⟩
      | pinf => right; exact ⟨.nan, rfl, rfl⟩
      | ninf => right; exact ⟨.nan, rfl, rfl⟩
      | nan => right; exact ⟨.nan, rfl, rfl⟩
    · rw [hm, pfSub_nan_right, pfSub_nan_right]
      right
      exact ⟨.nan, rfl, rfl⟩

theorem asciiCell_nonfinite (vs : List PFloat) (v : PFloat) (hv : v ∈ vs)
    (hnf : v.isFinite = false)
    (hne : pfBeq (pymax vs) (pymin vs) = false) :
    asciiCell (pymin vs) (pymax vs) v = none := by
  unfold asciiCell
  rcases div_nonfinite_core vs v hv hnf hne with h | ⟨d, hd, hdf⟩
  · rw [h]; rfl
  · rw [hd, Option.some_bind, pfToInt_mul_nonfinite d 8 hdf]; rfl

theorem brailleCell_nonfinite (vs : List PFloat) (v : PFloat) (hv : v ∈ vs)
    (hnf : v.isFinite = false)
    (hne : pfBeq (pymax vs) (pymin vs) = false) :
    brailleCell (pymin vs) (pymax vs) v = none := by
  unfold brailleCell
  rcases div_nonfinite_core vs v hv hnf hne with h | ⟨d, hd, hdf⟩
  · rw [h]; rfl
  · rw [hd, Option.some_bind, pfToInt_mul_nonfinite d 4 hdf]

theorem optionMapM_none {α β : Type} (f : α → Option β) (l : List α)
    (h : ∃ x ∈ l, f x = none) : optionMapM f l = none := by
  induction l with
  | nil => simp at h
  | cons x xs ih =>
    rcases h with ⟨y, hy, hfy⟩
    rcases List.mem_cons.mp hy with rfl | hmem
    · simp [optionMapM, hfy]
    · cases hfx : f x with
      | none => simp [optionMapM, hfx]
      | some b => simp [optionMapM, hfx, ih ⟨y, hmem, hfy⟩]

theorem brailleChunks_none_aux (m M : PFloat) :
    ∀ (n : ℕ) (l : List PFloat), l.length ≤ n →
      (∃ x ∈ l, brailleCell m M x = none) → brailleChunks m M l = none := by
  intro n
  induction n with
  | zero =>
    intro l hl h
    cases l with
    | nil => simp at h
    | cons x xs => simp at hl
  | succ n ih =>
    intro l hl h
    match l with
    | [] => simp at h
    | [x] =>
      rcases h with ⟨y, hy, hfy⟩
      rcases List.mem_singleton.mp hy with rfl
      simp [brailleChunks, hfy]
    | x :: y :: rest =>
      cases hx : brailleCell m M x with
      | none => simp [brailleChunks, hx]
      | some lh =>
        cases hy : brailleCell m M y with
        | none => simp [brailleChunks, hx, hy]
        | some rh =>
          have hrest : ∃ z ∈ rest, brailleCell m M z = none := by
            rcases h with ⟨z, hz, hfz⟩
            rcases List.mem_cons.mp hz with rfl | hz'
            · rw [hfz] at hx; cases hx
            · rcases List.mem_cons.mp hz' with rfl | hz''
              · rw [hfz] at hy; cases hy
              · exact ⟨z, hz'', hfz⟩
          have hlen : rest.length ≤ n := by
            simp at hl
            omega
          have hchunks := ih rest hlen hrest
          cases hL : pyIndexNat LEFT_HEIGHTS lh <;>
            cases hR : pyIndexNat RIGHT_HEIGHTS rh <;>
            simp [brailleChunks, hx, hy, hL, hR, hchunks]

theorem brailleChunks_none (m M : PFloat) (l : List PFloat)
    (h : ∃ x ∈ l, brailleCell m M x = none) :
    brailleChunks m M l = none :=
  brailleChunks_none_aux m M l.length l le_rfl h

/-- C7 (amended): both renderers raise on an input containing a
non-finite value whenever the Python `max` and `min` of the list do
not compare equal and no downsampling occurs (`len ≤ width` for the
ASCII variant, `len ≤ 2·width` for braille); when `max == min` holds —
as for an all-infinite input — a flat line is rendered silently, as
the counterexample shows (and downsampling can likewise drop the
non-finite point). -/
theorem c7_nonfinite_raise_amended (vs : List PFloat) (w1 w2 : ℕ)
    (hex : ∃ v ∈ vs, v.isFinite = false)
    (hne : pfBeq (pymax vs) (pymin vs) = false)
    (h1 : vs.length ≤ w1) (h2 : vs.length ≤ w2 * 2) :
    generate_ascii_sparkline vs w1 = none ∧
    generate_braille_sparkline vs w2 = none := by
  obtain ⟨v, hv, hnf⟩ := hex
  have hvs : vs ≠ [] := by
    intro h
    subst h
    cases hv
  constructor
  · unfold generate_ascii_sparkline
    rw [if_neg hvs, if_neg (by rw [hne]; simp)]
    have hnr : ¬ w1 < vs.length := by omega
    rw [if_neg hnr, Option.some_bind]
    exact optionMapM_none _ vs ⟨v, hv, asciiCell_nonfinite vs v hv hnf hne⟩
  · unfold generate_braille_sparkline
    rw [if_neg hvs, if_neg (by rw [hne]; simp)]
    dsimp only
    by_cases heq : vs.length = w2 * 2
    · rw [if_pos heq, Option.some_bind]
      exact brailleChunks_none _ _ vs
        ⟨v, hv, brailleCell_nonfinite vs v hv hnf hne⟩
    · rw [if_neg heq, if_neg (by omega), Option.some_bind]
      refine brailleChunks_none _ _ _ ⟨v, List.mem_append_left _ hv, ?_⟩
      exact brailleCell_nonfinite vs v hv hnf hne

/-- Witness for C7: the amended theorem applied to `[0.0, inf]` with
the default widths 10 and 8. -/
theorem c7_nonfinite_raise_amended_witness :
    generate_ascii_sparkline [.finite 0, .pinf] 10 = none ∧
    generate_braille_sparkline [.finite 0, .pinf] 8 = none :=
  c7_nonfinite_raise_amended [.finite 0, .pinf] 10 8
    ⟨.pinf, by decide, rfl⟩ (by decide) (by decide) (by decide)

theorem yoyStep_isSome_iff (t : List (String × ℚ)) (o : Observation) :
    (yoyStep t o).isSome = true ↔
    ∃ p v, prior12 o.obs_date = some p ∧ tableLookup t p = some v ∧
      v ≠ 0 := by
  unfold yoyStep
  cases hp : prior12 o.obs_date with
  | none => simp
  | some p =>
    simp only [Option.some_bind, Option.some.injEq]
    cases hl : tableLookup t p with
    | none => simp [hl]
    | some v =>
      by_cases hv : v = 0
      · subst hv; simp [hl]
      · simp [hl, hv]

theorem yoyStep_some_fields (t : List (String × ℚ)) (o o' : Observation)
    (h : yoyStep t o = some o') :
    o'.obs_date = o.obs_date ∧ o'.unit = some "%" := by
  unfold yoyStep at h
  obtain ⟨p, hp, hf⟩ := Option.bind_eq_some.mp h
  cases hl : tableLookup t p with
  | none => rw [hl] at hf; cases hf
  | some v =>
    rw [hl] at hf
    dsimp only at hf
    by_cases hv : v = 0
    · rw [if_neg (by simpa using hv)] at hf; cases hf
    · rw [if_pos hv] at hf
      cases hf
      exact ⟨rfl, rfl⟩

theorem qoqStep_isSome_iff (t : List (String × ℚ)) (o : Observation) :
    (qoqStep t o).isSome = true ↔
    ∃ p v, prior3 o.obs_date = some p ∧ tableLookup t p = some v ∧
      v ≠ 0 := by
  unfold qoqStep
  cases hp : prior3 o.obs_date with
  | none => simp
  | some p =>
    simp only [Option.some_bind, Option.some.injEq]
    cases hl : tableLookup t p with
    | none => simp [hl]
    | some v =>
      by_cases hv : v = 0
      · subst hv; simp [hl]
      · simp [hl, hv]

theorem qoqStep_some_fields (t : List (String × ℚ)) (o o' : Observation)
    (h : qoqStep t o = some o') :
    o'.obs_date = o.obs_date ∧ o'.unit = some "%" := by
  unfold qoqStep at h
  obtain ⟨p, hp, hf⟩ := Option.bind_eq_some.mp h
  cases hl : tableLookup t p with
  | none => rw [hl] at hf; cases hf
  | some v =>
    rw [hl] at hf
    dsimp only at hf
    by_cases hv : v = 0
    · rw [if_neg (by simpa using hv)] at hf; cases hf
    · rw [if_pos hv] at hf
      cases hf
      exact ⟨rfl, rfl⟩

theorem filterMap_emit_iff (step : Observation → Option Observation)
    (hdate : ∀ o o', step o = some o' → o'.obs_date = o.obs_date)
    (l : List Observation) (d : String) :
    (∃ o' ∈ l.filterMap step, o'.obs_date = d) ↔
    ∃ o ∈ l, o.obs_date = d ∧ (step o).isSome = true := by
  constructor
  · rintro ⟨o', ho', hd⟩
    obtain ⟨o, ho, hstep⟩ := List.mem_filterMap.mp ho'
    exact ⟨o, ho, by rw [← hdate o o' hstep]; exact hd, by
      rw [hstep]; rfl⟩
  · rintro ⟨o, ho, hd, hsome⟩
    obtain ⟨o', hstep⟩ := Option.isSome_iff_exists.mp hsome
    exact ⟨o', List.mem_filterMap.mpr ⟨o, ho, hstep⟩, by
      rw [hdate o o' hstep, hd]⟩

/-- C5: the cardinality gates (empty below 13 resp. 5 points); above
them an Observation is emitted for a date exactly when the date 12
(resp. 3) months earlier — computed by `strptime`/`replace`/`strftime`
with rollover — is present in the date→value dict with a non-zero
value; every emitted Observation carries unit `%`; and on the
13-month synthetic series the YoY percent at the only month with a
year-ago partner (`M = 12`, value `112` against `100`) is exactly
`12`. -/
theorem c5_yoy_qoq_characterization :
    (∀ l : List Observation, l.length < 13 → calculate_yoy_percent l = []) ∧
    (∀ l : List Observation, l.length < 5 → calculate_qoq_percent l = []) ∧
    (∀ (l : List Observation) (d : String), 13 ≤ l.length →
      ((∃ o' ∈ calculate_yoy_percent l, o'.obs_date = d) ↔
        (∃ o ∈ l, o.obs_date = d) ∧
        ∃ p v, prior12 d = some p ∧
          tableLookup (dateTable l) p = some v ∧ v ≠ 0)) ∧
    (∀ (l : List Observation) (d : String), 5 ≤ l.length →
      ((∃ o' ∈ calculate_qoq_percent l, o'.obs_date = d) ↔
        (∃ o ∈ l, o.obs_date = d) ∧
        ∃ p v, prior3 d = some p ∧
          tableLookup (dateTable l) p = some v ∧ v ≠ 0)) ∧
    (∀ (l : List Observation) (o' : Observation),
      o' ∈ calculate_yoy_percent l → o'.unit = some "%") ∧
    (∀ (l : List Observation) (o' : Observation),
      o' ∈ calculate_qoq_percent l → o'.unit = some "%") ∧
    calculate_yoy_percent synthetic13 =
      [ { metric_id := "m", obs_date := "2024-01-01", value := 12,
          unit := some "%", source := "s", retrieved_at := none } ] := by
  refine ⟨fun l h => by simp [calculate_yoy_percent, h],
    fun l h => by simp [calculate_qoq_percent, h],
    fun l d h13 => ?_, fun l d h5 => ?_, fun l o' h => ?_, fun l o' h => ?_,
    ?_⟩
  · unfold calculate_yoy_percent
    rw [if_neg (by omega)]
    rw [filterMap_emit_iff (yoyStep (dateTable l))
      (fun o o' h => (yoyStep_some_fields _ o o' h).1) l d]
    constructor
    · rintro ⟨o, ho, hod, hsome⟩
      rcases (yoyStep_isSome_iff _ o).mp hsome with ⟨p, v, hp, hl, hv⟩
      exact ⟨⟨o, ho, hod⟩, p, v, by rw [← hod]; exact hp, hl, hv⟩
    · rintro ⟨⟨o, ho, hod⟩, p, v, hp, hl, hv⟩
      exact ⟨o, ho, hod, (yoyStep_isSome_iff _ o).mpr
        ⟨p, v, by rw [hod]; exact hp, hl, hv⟩⟩
  · unfold calculate_qoq_percent
    rw [if_neg (by omega)]
    rw [filterMap_emit_iff (qoqStep (dateTable l))
      (fun o o' h => (qoqStep_some_fields _ o o' h).1) l d]
    constructor
    · rintro ⟨o, ho, hod, hsome⟩
      rcases (qoqStep_isSome_iff _ o).mp hsome with ⟨p, v, hp, hl, hv⟩
      exact ⟨⟨o, ho, hod⟩, p, v, by rw [← hod]; exact hp, hl, hv⟩
    · rintro ⟨⟨o, ho, hod⟩, p, v, hp, hl, hv⟩
      exact ⟨o, ho, hod, (qoqStep_isSome_iff _ o).mpr
        ⟨p, v, by rw [hod]; exact hp, hl, hv⟩⟩
  · unfold calculate_yoy_percent at h
    by_cases hlen : l.length < 13
    · rw [if_pos hlen] at h; cases h
    · rw [if_neg hlen] at h
      obtain ⟨o, _, hstep⟩ := List.mem_filterMap.mp h
      exact (yoyStep_some_fields _ o o' hstep).2
  · unfold calculate_qoq_percent at h
    by_cases hlen : l.length < 5
    · rw [if_pos hlen] at h; cases h
    · rw [if_neg hlen] at h
      obtain ⟨o, _, hstep⟩ := List.mem_filterMap.mp h
      exact (qoqStep_some_fields _ o o' hstep).2
  · rw [show calculate_yoy_percent synthetic13
        = synthetic13.filterMap (yoyStep (dateTable synthetic13)) by
      unfold calculate_yoy_percent
      rw [if_neg (by decide)]]
    set t := dateTable synthetic13 with ht
    have hp01 : prior12 "2024-01-01" = some "2023-01-01" := by decide
    have hp02 : prior12 "2023-12-01" = some "2022-12-01" := by decide
    have hp03 : prior12 "2023-11-01" = some "2022-11-01" := by decide
    have hp04 : prior12 "2023-10-01" = some "2022-10-01" := by decide
    have hp05 : prior12 "2023-09-01" = some "2022-09-01" := by decide
    have hp06 : prior12 "2023-08-01" = some "2022-08-01" := by decide
    have hp07 : prior12 "2023-07-01" = some "2022-07-01" := by decide
    have hp08 : prior12 "2023-06-01" = some "2022-06-01" := by decide
    have hp09 : prior12 "2023-05-01" = some "2022-05-01" := by decide
    have hp10 : prior12 "2023-04-01" = some "2022-04-01" := by decide
    have hp11 : prior12 "2023-03-01" = some "2022-03-01" := by decide
    have hp12 : prior12 "2023-02-01" = some "2022-02-01" := by decide
    have hp13 : prior12 "2023-01-01" = some "2022-01-01" := by decide
    have hl01 : tableLookup t "2023-01-01" = some 100 := by rw [ht]; decide
    have hl02 : tableLookup t "2022-12-01" = none := by rw [ht]; decide
    have hl03 : tableLookup t "2022-11-01" = none := by rw [ht]; decide
    have hl04 : tableLookup t "2022-10-01" = none := by rw [ht]; decide
    have hl05 : tableLookup t "2022-09-01" = none := by rw [ht]; decide
    have hl06 : tableLookup t "2022-08-01" = none := by rw [ht]; decide
    have hl07 : tableLookup t "2022-07-01" = none := by rw [ht]; decide
    have hl08 : tableLookup t "2022-06-01" = none := by rw [ht]; decide
    have hl09 : tableLookup t "2022-05-01" = none := by rw [ht]; decide
    have hl10 : tableLookup t "2022-04-01" = none := by rw [ht]; decide
    have hl11 : tableLookup t "2022-03-01" = none := by rw [ht]; decide
    have hl12 : tableLookup t "2022-02-01" = none := by rw [ht]; decide
    have hl13 : tableLookup t "2022-01-01" = none := by rw [ht]; decide
    simp only [synthetic13, List.filterMap_cons, List.filterMap_nil,
      yoyStep, hp01, hp02, hp03, hp04, hp05, hp06, hp07, hp08, hp09,
      hp10, hp11, hp12, hp13, hl01, hl02, hl03, hl04, hl05, hl06, hl07,
      hl08, hl09, hl10, hl11, hl12, hl13, Option.some_bind]
    norm_num [pyRound, rndHalfEven]

/-- Witness for C5: the gates applied to truncations of the synthetic
series, and the emission characterization applied at the date
`2024-01-01`, whose year-ago date carries the non-zero value 100. -/
theorem c5_yoy_qoq_characterization_witness :
    calculate_yoy_percent (synthetic13.take 12) = [] ∧
    calculate_qoq_percent (synthetic13.take 4) = [] ∧
    (∃ o' ∈ calculate_yoy_percent synthetic13,
      o'.obs_date = "2024-01-01") :=
  ⟨c5_yoy_qoq_characterization.1 _ (by decide),
   c5_yoy_qoq_characterization.2.1 _ (by decide),
   (c5_yoy_qoq_characterization.2.2.1 synthetic13 "2024-01-01"
     (by decide)).mpr
     ⟨by decide, "2023-01-01", 100, by decide, by decide, by decide⟩⟩

theorem pfVal_of_finite (v : PFloat) (h : v.isFinite = true) :
    v = .finite (pfVal v) := by
  cases v with
  | finite q => rfl
  | pinf => simp [PFloat.isFinite] at h
  | ninf => simp [PFloat.isFinite] at h
  | nan => simp [PFloat.isFinite] at h

theorem pfLtB_trans : Transitive (fun a b : PFloat => pfLt a b = true) := by
  intro a b c hab hbc
  cases a <;> cases b <;> cases c <;>
    simp [pfLt] at hab hbc ⊢
  exact lt_trans hab hbc

theorem foldMin_fin :
    ∀ (xs : List PFloat) (qa : ℚ), (∀ v ∈ xs, v.isFinite = true) →
    ∃ qm, xs.foldl (fun a y => if pfLt y a then y else a) (.finite qa)
        = .finite qm ∧ qm ≤ qa ∧
      ∀ v ∈ xs, qm ≤ pfVal v := by
  intro xs
  induction xs with
  | nil => exact fun qa _ => ⟨qa, rfl, le_rfl, by simp⟩
  | cons y ys ih =>
    intro qa hfin
    have hy : y.isFinite = true := hfin y (List.mem_cons_self _ _)
    have hys : ∀ v ∈ ys, v.isFinite = true :=
      fun v hv => hfin v (List.mem_cons_of_mem _ hv)
    rw [pfVal_of_finite y hy]
    by_cases hlt : pfVal y < qa
    · obtain ⟨qm, heq, hle, hall⟩ := ih (pfVal y) hys
      refine ⟨qm, ?_, le_trans hle (le_of_lt hlt), ?_⟩
      · simpa [List.foldl_cons, pfLt, hlt] using heq
      · intro v hv
        rcases List.mem_cons.mp hv with rfl | hv'
        · simpa [pfVal] using hle
        · exact hall v hv'
    · obtain ⟨qm, heq, hle, hall⟩ := ih qa hys
      refine ⟨qm, ?_, hle, ?_⟩
      · simpa [List.foldl_cons, pfLt, hlt] using heq
      · intro v hv
        rcases List.mem_cons.mp hv with rfl | hv'
        · simp only [pfVal]
          exact le_trans hle (le_of_not_lt hlt)
        · exact hall v hv'

theorem foldMax_fin :
    ∀ (xs : List PFloat) (qa : ℚ), (∀ v ∈ xs, v.isFinite = true) →
    ∃ qM, xs.foldl (fun a y => if pfLt a y then y else a) (.finite qa)
        = .finite qM ∧ qa ≤ qM ∧
      ∀ v ∈ xs, pfVal v ≤ qM := by
  intro xs
  induction xs with
  | nil => exact fun qa _ => ⟨qa, rfl, le_rfl, by simp⟩
  | cons y ys ih =>
    intro qa hfin
    have hy : y.isFinite = true := hfin y (List.mem_cons_self _ _)
    have hys : ∀ v ∈ ys, v.isFinite = true :=
      fun v hv => hfin v (List.mem_cons_of_mem _ hv)
    rw [pfVal_of_finite y hy]
    by_cases hlt : qa < pfVal y
    · obtain ⟨qM, heq, hle, hall⟩ := ih (pfVal y) hys
      refine ⟨qM, ?_, le_trans (le_of_lt hlt) hle, ?_⟩
      · simpa [List.foldl_cons, pfLt, hlt] using heq
      · intro v hv
        rcases List.mem_cons.mp hv with rfl | hv'
        · simpa [pfVal] using hle
        · exact hall v hv'
    · obtain ⟨qM, heq, hle, hall⟩ := ih qa hys
      refine ⟨qM, ?_, hle, ?_⟩
      · simpa [List.foldl_cons, pfLt, hlt] using heq
      · intro v hv
        rcases List.mem_cons.mp hv with rfl | hv'
        · simp only [pfVal]
          exact le_trans (le_of_not_lt hlt) hle
        · exact hall v hv'

theorem pymin_fin (x : PFloat) (xs : List PFloat)
    (hfin : ∀ v ∈ x :: xs, v.isFinite = true) :
    ∃ qm, pymin (x :: xs) = .finite qm ∧
      ∀ v ∈ x :: xs, qm ≤ pfVal v := by
  have hx : x.isFinite = true := hfin x (List.mem_cons_self _ _)
  have hxs : ∀ v ∈ xs, v.isFinite = true :=
    fun v hv => hfin v (List.mem_cons_of_mem _ hv)
  obtain ⟨qm, heq, hle, hall⟩ := foldMin_fin xs (pfVal x) hxs
  refine ⟨qm, ?_, ?_⟩
  · unfold pymin
    rw [pfVal_of_finite x hx] at heq ⊢
    exact heq
  · intro v hv
    rcases List.mem_cons.mp hv with rfl | hv'
    · exact hle
    · exact hall v hv'

theorem pymax_fin (x : PFloat) (xs : List PFloat)
    (hfin : ∀ v ∈ x :: xs, v.isFinite = true) :
    ∃ qM, pymax (x :: xs) = .finite qM ∧
      ∀ v ∈ x :: xs, pfVal v ≤ qM := by
  have hx : x.isFinite = true := hfin x (List.mem_cons_self _ _)
  have hxs : ∀ v ∈ xs, v.isFinite = true :=
    fun v hv => hfin v (List.mem_cons_of_mem _ hv)
  obtain ⟨qM, heq, hle, hall⟩ := foldMax_fin xs (pfVal x) hxs
  refine ⟨qM, ?_, ?_⟩
  · unfold pymax
    rw [pfVal_of_finite x hx] at heq ⊢
    exact heq
  · intro v hv
    rcases List.mem_cons.mp hv with rfl | hv'
    · exact hle
    · exact hall v hv'

theorem asciiCell_finite_eval (qm qM qv : ℚ) (hlt : qm < qM)
    (h1 : qm ≤ qv) (h2 : qv ≤ qM) :
    asciiCell (.finite qm) (.finite qM) (.finite qv)
      = some ⌊(qv - qm) / (qM - qm) * 8⌋ ∧
    0 ≤ ⌊(qv - qm) / (qM - qm) * 8⌋ ∧
    ⌊(qv - qm) / (qM - qm) * 8⌋ ≤ 8 := by
  have hD : (0:ℚ) < qM - qm := by linarith
  have hd0 : (0:ℚ) ≤ (qv - qm) / (qM - qm) :=
    div_nonneg (by linarith) (le_of_lt hD)
  have hd1 : (qv - qm) / (qM - qm) ≤ 1 := by
    rw [div_le_one hD]
    linarith
  have h80 : (0:ℚ) ≤ (qv - qm) / (qM - qm) * 8 := by positivity
  have h88 : (qv - qm) / (qM - qm) * 8 ≤ 8 := by nlinarith
  have hfl0 : 0 ≤ ⌊(qv - qm) / (qM - qm) * 8⌋ := by
    exact_mod_cast Int.le_floor.mpr (by exact_mod_cast h80)
  have hfl8 : ⌊(qv - qm) / (qM - qm) * 8⌋ ≤ 8 := by
    have := Int.floor_le_floor (α := ℚ) h88
    simpa using this
  refine ⟨?_, hfl0, hfl8⟩
  unfold asciiCell
  have hDne : qM - qm ≠ 0 := ne_of_gt hD
  rw [show pfSub (.finite qv) (.finite qm) = .finite (qv - qm) from rfl,
    show pfSub (.finite qM) (.finite qm) = .finite (qM - qm) from rfl,
    show pfDiv (.finite (qv - qm)) (.finite (qM - qm))
      = some (.finite ((qv - qm) / (qM - qm))) from by simp [pfDiv, hDne],
    Option.some_bind,
    show pfMul (.finite ((qv - qm) / (qM - qm))) (.finite 8)
      = .finite ((qv - qm) / (qM - qm) * 8) from rfl,
    show pfToInt (.finite ((qv - qm) / (qM - qm) * 8))
      = some (ratTrunc ((qv - qm) / (qM - qm) * 8)) from rfl,
    Option.some_bind,
    show ratTrunc ((qv - qm) / (qM - qm) * 8)
      = ⌊(qv - qm) / (qM - qm) * 8⌋ from by simp [ratTrunc, h80]]
  rw [if_pos ⟨le_trans (by norm_num) hfl0, hfl8⟩]

theorem optionMapM_eq_map {α β : Type} (f : α → Option β) (g : α → β)
    (l : List α) (h : ∀ x ∈ l, f x = some (g x)) :
    optionMapM f l = some (l.map g) := by
  induction l with
  | nil => rfl
  | cons x xs ih =>
    rw [List.map_cons]
    simp only [optionMapM, h x (List.mem_cons_self _ _),
      ih (fun y hy => h y (List.mem_cons_of_mem _ hy)), Option.some_bind]
    rfl

theorem chain_le_of_chain_pfLt (g : ℚ → ℤ)
    (hg : ∀ qa qb : ℚ, qa ≤ qb → g qa ≤ g qb) :
    ∀ (l : List PFloat), (∀ v ∈ l, v.isFinite = true) →
    List.Chain' (fun a b => pfLt a b = true) l →
    List.Chain' (fun a b : ℤ => a ≤ b)
      (l.map (fun v => g (pfVal v))) := by
  intro l
  induction l with
  | nil => exact fun _ _ => List.chain'_nil
  | cons a l ih =>
    intro hfin hchain
    cases l with
    | nil => exact List.chain'_singleton _
    | cons b l' =>
      rw [List.map_cons, List.map_cons, List.chain'_cons]
      obtain ⟨hab, htail⟩ := List.chain'_cons.mp hchain
      have ha : a.isFinite = true := hfin a (by simp)
      have hb : b.isFinite = true := hfin b (by simp)
      rw [pfVal_of_finite a ha, pfVal_of_finite b hb] at hab
      refine ⟨hg _ _ (le_of_lt (by simpa [pfLt] using hab)), ?_⟩
      exact ih (fun v hv => hfin v (List.mem_cons_of_mem _ hv)) htail

theorem ascii_monotone_core :
    ∀ (vals : List PFloat) (width : ℕ), 0 < width →
    (∀ v ∈ vals, v.isFinite = true) →
    List.Chain' (fun a b => pfLt a b = true) vals →
    ∃ ls, generate_ascii_sparkline vals width = some ls ∧
      List.Chain' (fun a b : ℤ => a ≤ b) ls := by
  intro vals width hw hfin hmono
  rcases vals with _ | ⟨x, _ | ⟨y, ys⟩⟩
  · exact ⟨[], by simp [generate_ascii_sparkline], List.chain'_nil⟩
  · have hx : x.isFinite = true := hfin x (by simp)
    refine ⟨[4], ?_, List.chain'_singleton _⟩
    unfold generate_ascii_sparkline
    rw [if_neg (by simp), if_pos (by
      rw [pfVal_of_finite x hx]
      simp [pymax, pymin, pfBeq])]
    rw [show min ([x].length) width = 1 by
      simp only [List.length_singleton]
      omega]
    rfl
  · obtain ⟨qm, hqm, hlb⟩ := pymin_fin x (y :: ys) hfin
    obtain ⟨qM, hqM, hub⟩ := pymax_fin x (y :: ys) hfin
    have hx : x.isFinite = true := hfin x (by simp)
    have hy : y.isFinite = true := hfin y (by simp)
    have hxy : pfLt x y = true := (List.chain'_cons.mp hmono).1
    have hqxy : pfVal x < pfVal y := by
      rw [pfVal_of_finite x hx, pfVal_of_finite y hy] at hxy
      simpa [pfLt] using hxy
    have hmM : qm < qM :=
      lt_of_le_of_lt (hlb x (by simp))
        (lt_of_lt_of_le hqxy (hub y (by simp)))
    have hbeq : pfBeq (pymax (x :: y :: ys)) (pymin (x :: y :: ys))
        = false := by
      rw [hqm, hqM]
      simp [pfBeq]
      exact ne_of_gt hmM
    haveI : IsTrans PFloat (fun a b => pfLt a b = true) :=
      ⟨fun _ _ _ hab hbc => pfLtB_trans hab hbc⟩
    have hpw := List.chain'_iff_pairwise.mp hmono
    have hcell : ∀ v ∈ x :: y :: ys,
        asciiCell (pymin (x :: y :: ys)) (pymax (x :: y :: ys)) v
          = some ⌊(pfVal v - qm) / (qM - qm) * 8⌋ := by
      intro v hv
      rw [hqm, hqM]
      have hev := (asciiCell_finite_eval qm qM (pfVal v) hmM (hlb v hv)
        (hub v hv)).1
      rw [pfVal_of_finite v (hfin v hv)]
      exact hev
    have hD : (0:ℚ) < qM - qm := by linarith
    have hmono8 : ∀ qa qb : ℚ, qa ≤ qb →
        (⌊(qa - qm) / (qM - qm) * 8⌋ : ℤ) ≤ ⌊(qb - qm) / (qM - qm) * 8⌋ := by
      intro qa qb h
      apply Int.floor_le_floor
      have hstep : (qa - qm) / (qM - qm) ≤ (qb - qm) / (qM - qm) :=
        (div_le_div_iff_of_pos_right hD).mpr (by linarith)
      nlinarith
    unfold generate_ascii_sparkline
    rw [if_neg (by simp), if_neg (by rw [hbeq]; simp)]
    by_cases hr : width < (x :: y :: ys).length
    · rw [if_pos hr]
      have hn0 : 0 < (x :: y :: ys).length := by simp
      have hA : ∀ i : ℕ, i < width →
          (ratTrunc ((i : ℚ) * ((x :: y :: ys).length : ℚ)
            / (width : ℚ))).toNat < (x :: y :: ys).length := by
        intro i hi
        have hq0 : (0:ℚ) ≤ (i : ℚ) * ((x :: y :: ys).length : ℚ)
            / (width : ℚ) := by positivity
        have hqlt : (i : ℚ) * ((x :: y :: ys).length : ℚ) / (width : ℚ)
            < ((x :: y :: ys).length : ℚ) := by
          rw [div_lt_iff₀ (by exact_mod_cast hw)]
          have hiw : (i:ℚ) < width := by exact_mod_cast hi
          have hnq : (0:ℚ) < ((x :: y :: ys).length : ℚ) := by
            exact_mod_cast hn0
          nlinarith
        have htr : ratTrunc ((i : ℚ) * ((x :: y :: ys).length : ℚ)
              / (width : ℚ))
            = ⌊(i : ℚ) * ((x :: y :: ys).length : ℚ) / (width : ℚ)⌋ := by
          simp only [ratTrunc]
          rw [if_pos hq0]
        have hfl0 : 0 ≤ ⌊(i : ℚ) * ((x :: y :: ys).length : ℚ)
            / (width : ℚ)⌋ := Int.le_floor.mpr (by exact_mod_cast hq0)
        have hfll : ⌊(i : ℚ) * ((x :: y :: ys).length : ℚ) / (width : ℚ)⌋
            < ((x :: y :: ys).length : ℤ) :=
          Int.floor_lt.mpr (by exact_mod_cast hqlt)
        rw [htr]
        omega
      have hres : sparkResample (x :: y :: ys) width
          = some ((List.range width).map (fun i : ℕ =>
              (x :: y :: ys).getD
                ((ratTrunc ((i : ℚ) * ((x :: y :: ys).length : ℚ)
                  / (width : ℚ))).toNat) .nan)) := by
        unfold sparkResample
        rw [if_neg (by omega)]
        apply optionMapM_eq_map
        intro i hi
        have hb := hA i (List.mem_range.mp hi)
        rw [List.get?_eq_get hb, List.getD_eq_get _ _ hb]
      rw [hres, Option.some_bind]
      rw [optionMapM_eq_map _
        (fun v => ⌊(pfVal v - qm) / (qM - qm) * 8⌋) _ (by
          intro z hz
          obtain ⟨i, hi, rfl⟩ := List.mem_map.mp hz
          have hb := hA i (List.mem_range.mp hi)
          rw [List.getD_eq_get _ _ hb]
          exact hcell _ (List.get_mem _ _ _))]
      refine ⟨_, rfl, ?_⟩
      rw [List.map_map, List.chain'_map]
      obtain ⟨k, rfl⟩ : ∃ k, width = k + 1 := ⟨width - 1, by omega⟩
      refine (List.chain'_range_succ _ k).mpr ?_
      intro m hm
      simp only [Function.comp]
      apply hmono8
      have hbm := hA m (by omega)
      have hbm1 := hA (m + 1) (by omega)
      rw [List.getD_eq_get _ _ hbm, List.getD_eq_get _ _ hbm1]
      have hmono_idx :
          (ratTrunc ((m : ℚ) * ((x :: y :: ys).length : ℚ)
            / ((k + 1 : ℕ) : ℚ))).toNat ≤
          (ratTrunc (((m + 1 : ℕ) : ℚ) * ((x :: y :: ys).length : ℚ)
            / ((k + 1 : ℕ) : ℚ))).toNat := by
        have h1 : (0:ℚ) ≤ (m : ℚ) * ((x :: y :: ys).length : ℚ)
            / ((k + 1 : ℕ) : ℚ) := by positivity
        have h2 : (0:ℚ) ≤ ((m + 1 : ℕ) : ℚ) * ((x :: y :: ys).length : ℚ)
            / ((k + 1 : ℕ) : ℚ) := by positivity
        have hnum : (m : ℚ) * ((x :: y :: ys).length : ℚ) ≤
            ((m + 1 : ℕ) : ℚ) * ((x :: y :: ys).length : ℚ) := by
          push_cast
          have hnn : (0:ℚ) ≤ ((x :: y :: ys).length : ℚ) := by positivity
          nlinarith
        have hle : (m : ℚ) * ((x :: y :: ys).length : ℚ)
              / ((k + 1 : ℕ) : ℚ) ≤
            ((m + 1 : ℕ) : ℚ) * ((x :: y :: ys).length : ℚ)
              / ((k + 1 : ℕ) : ℚ) := by
          apply (div_le_div_iff_of_pos_right ?_).mpr hnum
          positivity
        have ht1 : ratTrunc ((m : ℚ) * ((x :: y :: ys).length : ℚ)
              / ((k + 1 : ℕ) : ℚ))
            = ⌊(m : ℚ) * ((x :: y :: ys).length : ℚ)
                / ((k + 1 : ℕ) : ℚ)⌋ := by
          simp only [ratTrunc]
          rw [if_pos h1]
        have ht2 : ratTrunc (((m + 1 : ℕ) : ℚ)
              * ((x :: y :: ys).length : ℚ) / ((k + 1 : ℕ) : ℚ))
            = ⌊((m + 1 : ℕ) : ℚ) * ((x :: y :: ys).length : ℚ)
                / ((k + 1 : ℕ) : ℚ)⌋ := by
          simp only [ratTrunc]
          rw [if_pos h2]
        rw [ht1, ht2]
        exact Int.toNat_le_toNat (Int.floor_le_floor hle)
      rcases lt_or_eq_of_le hmono_idx with hlt | heq
      · have hrel := List.pairwise_iff_get.mp hpw ⟨_, hbm⟩ ⟨_, hbm1⟩ hlt
        have h1 := hfin _ (List.get_mem (x :: y :: ys) _ hbm)
        have h2 := hfin _ (List.get_mem (x :: y :: ys) _ hbm1)
        rw [pfVal_of_finite _ h1, pfVal_of_finite _ h2] at hrel
        exact le_of_lt (of_decide_eq_true hrel)
      · have hfe : (⟨_, hbm⟩ : Fin (x :: y :: ys).length) = ⟨_, hbm1⟩ :=
          Fin.ext heq
        exact le_of_eq
          (congrArg (fun t : Fin (x :: y :: ys).length =>
            pfVal ((x :: y :: ys).get t)) hfe)
    · rw [if_neg hr, Option.some_bind,
        optionMapM_eq_map _ (fun v => ⌊(pfVal v - qm) / (qM - qm) * 8⌋) _
          hcell]
      refine ⟨_, rfl, ?_⟩
      exact chain_le_of_chain_pfLt (fun q => ⌊(q - qm) / (qM - qm) * 8⌋)
        hmono8 _ hfin hmono

/-- C8: composing `prepare_sparkline_data` with
`generate_ascii_sparkline` on a monotonically increasing finite value
sequence renders without raising and yields a monotonically
non-decreasing sequence of glyph levels. -/
theorem c8_sparkline_monotone (l : List SparkObs) (points width : ℕ)
    (hw : 0 < width)
    (hfin : ∀ v ∈ prepare_sparkline_data l points, v.isFinite = true)
    (hmono : List.Chain' (fun a b => pfLt a b = true)
      (prepare_sparkline_data l points)) :
    ∃ ls, generate_ascii_sparkline (prepare_sparkline_data l points) width
        = some ls ∧ List.Chain' (fun a b : ℤ => a ≤ b) ls :=
  ascii_monotone_core _ width hw hfin hmono

/-- Witness for C8: three observations, newest first, whose values read
chronologically are `1 < 2 < 3`, at the default `points = 12` and
`width = 10`. -/
theorem c8_sparkline_monotone_witness :
    ∃ ls, generate_ascii_sparkline
        (prepare_sparkline_data
          [⟨.finite 3⟩, ⟨.finite 2⟩, ⟨.finite 1⟩] 12) 10
      = some ls ∧ List.Chain' (fun a b : ℤ => a ≤ b) ls :=
  c8_sparkline_monotone [⟨.finite 3⟩, ⟨.finite 2⟩, ⟨.finite 1⟩] 12 10
    (by decide) (by decide) (by
      show List.Chain' (fun a b => pfLt a b = true)
        [.finite 1, .finite 2, .finite 3]
      refine List.chain'_cons.mpr ⟨by decide, ?_⟩
      refine List.chain'_cons.mpr ⟨by decide, ?_⟩
      exact List.chain'_singleton _)
